import Mathlib

/-!
Verification of the transport/orchestration layer of the `mcp-orchestrator`
repository against its natural-language specification.

The TypeScript source is shallowly embedded: JavaScript objects that flow
through `JSON.parse` / `JSON.stringify` are modelled by an explicit `Json`
value type; the typed `MCPMessage` envelope is a Lean structure with
`Option` fields for the optional properties; stateful classes
(`CorrelationTracker`, `ProcessPool`, `ReconnectionHandler`, `BaseTransport`)
are modelled by explicit state passing; JavaScript exceptions are modelled by
`Except`; `Promise` results are modelled by the returned value of the
corresponding Lean function.  JavaScript numbers are modelled by `Int` (ids,
counters) and by `ℚ` (the backoff-delay arithmetic), with `Int.floor`
standing for `Math.floor`.
-/

namespace MCPOrch

/-- JSON values, the model of what `JSON.parse` can produce.  Numbers are
restricted to integers (sufficient for every numeric field the envelope
uses: ids and error codes).  Object fields are an ordered association list,
mirroring JavaScript property order. -/
inductive Json : Type where
  | null : Json
  | bool : Bool → Json
  | num : Int → Json
  | str : String → Json
  | arr : List Json → Json
  | obj : List (String × Json) → Json

namespace Json

/-- Property access `value[key]` on a parsed JSON value: only objects have
(string-keyed) own properties; on anything else the access yields
`undefined`, modelled as `none`.  (`JSON.parse` keeps the last duplicate
key, but serialized envelopes never contain duplicates; we look up the
first occurrence.) -/
def getField : Json → String → Option Json
  | .obj fs, k => (fs.find? (fun f => f.1 = k)).map (fun f => f.2)
  | _, _ => none

/-- `typeof v === 'object' && v !== null` in JavaScript: objects and arrays
pass, `null` (which also has typeof `object`) is explicitly excluded. -/
def isObjectLike : Json → Bool
  | .obj _ => true
  | .arr _ => true
  | _ => false

/-- `typeof v[key] === 'string'`. -/
def fieldIsString (j : Json) (k : String) : Bool :=
  match j.getField k with
  | some (.str _) => true
  | _ => false

/-- `v[key] !== undefined`: the key is present. -/
def hasField (j : Json) (k : String) : Bool :=
  (j.getField k).isSome

/-- `v[key] === '2.0'`: strict equality against the protocol-tag string. -/
def fieldIs (j : Json) (k : String) (s : String) : Bool :=
  match j.getField k with
  | some (.str t) => t = s
  | _ => false

end Json

/-- `JSONMessageAdapter.validate` (src/src/transports/base/message-adapter.ts,
lines 33–50), applied to a parsed JSON value exactly as `deserialize` does:
must be a non-null object, must carry `jsonrpc === '2.0'`, and must look like
a request (`typeof method === 'string' && id !== undefined`), a response
(`(result !== undefined || error !== undefined) && id !== undefined`) or a
notification (`typeof method === 'string' && id === undefined`). -/
def validate (message : Json) : Bool :=
  if !message.isObjectLike then false
  else if !(message.fieldIs "jsonrpc" "2.0") then false
  else
    let isRequest := message.fieldIsString "method" && message.hasField "id"
    let isResponse := (message.hasField "result" || message.hasField "error")
        && message.hasField "id"
    let isNotification := message.fieldIsString "method" && !message.hasField "id"
    isRequest || isResponse || isNotification

/-- The discriminant exactly as the specification and claim C1 word it: the
protocol tag is present and the message is EXACTLY ONE of — Request (method
present, id present), Notification (method present, id absent), Response
(id present, exactly one of result/error present).  This definition follows
the claim's words, to be compared with `validate`, which follows the code. -/
def specValidate (message : Json) : Bool :=
  let hasTag := message.fieldIs "jsonrpc" "2.0"
  let isRequest := message.hasField "method" && message.hasField "id"
  let isNotification := message.hasField "method" && !message.hasField "id"
  let isResponse := message.hasField "id"
      && (message.hasField "result" ^^ message.hasField "error")
  hasTag &&
    ((isRequest && !isNotification && !isResponse)
      || (isNotification && !isRequest && !isResponse)
      || (isResponse && !isRequest && !isNotification))

/-- The amended discriminant: what `validate` actually accepts.  Differences
from `specValidate`: a Request/Notification needs `method` to be a string
(not merely present); a Response needs AT LEAST one of result/error (a
message carrying both is accepted); a message matching several of the three
forms at once is accepted. -/
def amendedValidate (message : Json) : Bool :=
  message.isObjectLike
    && message.fieldIs "jsonrpc" "2.0"
    && ((message.fieldIsString "method" && message.hasField "id")
      || ((message.hasField "result" || message.hasField "error")
          && message.hasField "id")
      || (message.fieldIsString "method" && !message.hasField "id"))

/-! ### The typed envelope

`MCPMessage` (src/src/transports/base/transport-interface.ts, lines 1–12):
`jsonrpc: '2.0'; id?: string | number; method?: string; params?: T;
result?: T; error?: { code, message, data? }`.  Payloads (`params`,
`result`, error `data`) are modelled as arbitrary JSON values, which is
what "JSON-representable payload" means. -/

/-- A JSON-RPC id: `string | number`. -/
inductive RpcId : Type where
  | str : String → RpcId
  | num : Int → RpcId
  deriving Repr, DecidableEq

/-- The error object of a Response. -/
structure RpcError : Type where
  code : Int
  message : String
  data : Option Json := none

/-- The wire envelope.  An absent optional property is `none`. -/
structure MCPMessage : Type where
  jsonrpc : String := "2.0"
  id : Option RpcId := none
  method : Option String := none
  params : Option Json := none
  result : Option Json := none
  error : Option RpcError := none

/-- JavaScript truthiness of the `id` field (`!message.id`): absent ids,
the number `0` and the empty string are all falsy. -/
def idTruthy : Option RpcId → Bool
  | none => false
  | some (.str s) => !(s = "")
  | some (.num n) => !(n = 0)

/-- The JSON value `JSON.stringify` sees for a typed envelope: properties
in declaration order, absent optionals omitted (`undefined` properties are
dropped by `JSON.stringify`). -/
def encodeId : RpcId → Json
  | .str s => .str s
  | .num n => .num n

/-- Encoding of the error object. -/
def encodeError (e : RpcError) : Json :=
  .obj ([("code", .num e.code), ("message", .str e.message)]
    ++ (match e.data with | some d => [("data", d)] | none => []))

/-- Encoding of the whole envelope as a JSON value. -/
def encodeMessage (m : MCPMessage) : Json :=
  .obj ([("jsonrpc", .str m.jsonrpc)]
    ++ (match m.id with | some i => [("id", encodeId i)] | none => [])
    ++ (match m.method with | some s => [("method", .str s)] | none => [])
    ++ (match m.params with | some p => [("params", p)] | none => [])
    ++ (match m.result with | some r => [("result", r)] | none => [])
    ++ (match m.error with | some e => [("error", encodeError e)] | none => []))

/-- Reading a typed envelope back out of a parsed JSON value (the cast
`parsed as MCPMessage<T>` in `deserialize`, made explicit): fails on field
shapes the typed envelope cannot hold. -/
def decodeId : Json → Option RpcId
  | .str s => some (.str s)
  | .num n => some (.num n)
  | _ => none

/-- Decoding of the error object. -/
def decodeError (j : Json) : Option RpcError :=
  match j.getField "code", j.getField "message" with
  | some (.num c), some (.str msg) => some { code := c, message := msg, data := j.getField "data" }
  | _, _ => none

/-- Decoding of the whole envelope from a JSON value. -/
def decodeMessage (j : Json) : Option MCPMessage :=
  match j.getField "jsonrpc" with
  | some (.str tag) =>
    let idf : Option (Option RpcId) :=
      match j.getField "id" with
      | none => some none
      | some v => (decodeId v).map some
    let methodf : Option (Option String) :=
      match j.getField "method" with
      | none => some none
      | some (.str s) => some (some s)
      | some _ => none
    let errorf : Option (Option RpcError) :=
      match j.getField "error" with
      | none => some none
      | some v => (decodeError v).map some
    match idf, methodf, errorf with
    | some i, some mth, some e =>
      some { jsonrpc := tag, id := i, method := mth,
             params := j.getField "params", result := j.getField "result", error := e }
    | _, _, _ => none
  | _ => none

/-- `JSONMessageAdapter.validate` applied to a typed envelope (the typed
call sites): `typeof method === 'string'` holds exactly when `method` is
present, `id !== undefined` exactly when `id` is present. -/
def validateMsg (m : MCPMessage) : Bool :=
  if !(m.jsonrpc = "2.0") then false
  else
    let isRequest := m.method.isSome && m.id.isSome
    let isResponse := (m.result.isSome || m.error.isSome) && m.id.isSome
    let isNotification := m.method.isSome && !m.id.isSome
    isRequest || isResponse || isNotification

/-! ### The wire codec

`JSONMessageAdapter` (src/src/transports/base/message-adapter.ts):
`serialize` is `JSON.stringify`, `deserialize` is `JSON.parse` followed by
the `validate` gate.  `JSON.stringify` and `JSON.parse` are modelled
concretely: `renderJson` produces the canonical compact output of
`JSON.stringify` (no whitespace, the standard escape set), and `parseJson`
parses that grammar (numbers restricted to integers, matching the `Json`
model; whitespace skipping and the leniencies of full `JSON.parse` are not
needed for strings produced by `serialize`). -/

/-- The opening-brace character, `\x7b`. -/
def lbrace : Char := '\x7b'

/-- The closing-brace character, `\x7d`. -/
def rbrace : Char := '\x7d'

/-- Decimal digit to character. -/
def digitChar (d : Nat) : Char := Char.ofNat (48 + d)

/-- Hexadecimal digit to character (lowercase, as `JSON.stringify` emits). -/
def hexDigitChar (d : Nat) : Char :=
  if d < 10 then Char.ofNat (48 + d) else Char.ofNat (87 + d)

/-- Decimal rendering of a natural number, most significant digit first. -/
def renderNat (n : Nat) : List Char :=
  if n < 10 then [digitChar n]
  else renderNat (n / 10) ++ [digitChar (n % 10)]
  decreasing_by exact Nat.div_lt_self (by omega) (by omega)

/-- Decimal rendering of an integer. -/
def renderInt (n : Int) : List Char :=
  if n < 0 then '-' :: renderNat n.natAbs else renderNat n.natAbs

/-- The escape `JSON.stringify` applies to one character: `"` and `\`
get a backslash, the five control characters with short forms use them,
any other control character becomes `\u00XX`, everything else is emitted
literally. -/
def escapeChar (c : Char) : List Char :=
  if c = '"' then ['\\', '"']
  else if c = '\\' then ['\\', '\\']
  else if c = '\x08' then ['\\', 'b']
  else if c = '\x09' then ['\\', 't']
  else if c = '\x0a' then ['\\', 'n']
  else if c = '\x0c' then ['\\', 'f']
  else if c = '\x0d' then ['\\', 'r']
  else if c.toNat < 32 then
    ['\\', 'u', '0', '0', hexDigitChar (c.toNat / 16), hexDigitChar (c.toNat % 16)]
  else [c]

/-- Rendering of a JSON string literal, quotes included. -/
def renderString (s : String) : List Char :=
  '"' :: s.data.flatMap escapeChar ++ ['"']

mutual

/-- `JSON.stringify` on a JSON value (compact form, property order kept). -/
def renderJson : Json → List Char
  | .num n => renderInt n
  | .str s => renderString s
  | .arr xs => '[' :: renderItems xs ++ [']']
  | .obj fs => lbrace :: renderFields fs ++ [rbrace]
  | .bool false => ['f', 'a', 'l', 's', 'e']
  | .bool true => ['t', 'r', 'u', 'e']
  | .null => ['n', 'u', 'l', 'l']

/-- Comma-separated rendering of array elements. -/
def renderItems : List Json → List Char
  | [] => []
  | [x] => renderJson x
  | x :: y :: xs => renderJson x ++ ',' :: renderItems (y :: xs)

/-- Comma-separated rendering of object fields. -/
def renderFields : List (String × Json) → List Char
  | [] => []
  | [f] => renderString f.1 ++ ':' :: renderJson f.2
  | f :: g :: fs => renderString f.1 ++ ':' :: renderJson f.2 ++ ',' :: renderFields (g :: fs)

end

/-- Digit test for the JSON number grammar. -/
def isDigitChar (c : Char) : Bool :=
  decide (48 ≤ c.toNat ∧ c.toNat ≤ 57)

/-- Value of a hexadecimal digit character. -/
def hexVal (c : Char) : Option Nat :=
  if 48 ≤ c.toNat ∧ c.toNat ≤ 57 then some (c.toNat - 48)
  else if 97 ≤ c.toNat ∧ c.toNat ≤ 102 then some (c.toNat - 87)
  else if 65 ≤ c.toNat ∧ c.toNat ≤ 70 then some (c.toNat - 55)
  else none

/-- The single-character escapes accepted after a backslash. -/
def unescapeChar (c : Char) : Option Char :=
  if c = '"' then some '"'
  else if c = '\\' then some '\\'
  else if c = '/' then some '/'
  else if c = 'b' then some '\x08'
  else if c = 't' then some '\x09'
  else if c = 'n' then some '\x0a'
  else if c = 'f' then some '\x0c'
  else if c = 'r' then some '\x0d'
  else none

/-- Greedy decimal-digit consumption with an accumulator. -/
def parseDigitsAcc (acc : Nat) : List Char → Nat × List Char
  | [] => (acc, [])
  | c :: cs =>
    if isDigitChar c then parseDigitsAcc (acc * 10 + (c.toNat - 48)) cs
    else (acc, c :: cs)

/-- Parse the body of a JSON string literal after the opening quote, up to
and including the closing quote; returns the decoded characters.  Fuel
indexed (at least one input character is consumed per step). -/
def parseStringBody : Nat → List Char → Option (List Char × List Char)
  | 0, _ => none
  | _ + 1, [] => none
  | fuel + 1, c :: cs =>
    if c = '"' then some ([], cs)
    else if c = '\\' then
      match cs with
      | [] => none
      | e :: cs2 =>
        if e = 'u' then
          match cs2 with
          | h1 :: h2 :: h3 :: h4 :: cs3 =>
            match hexVal h1, hexVal h2, hexVal h3, hexVal h4 with
            | some a, some b, some v3, some v4 =>
              (parseStringBody fuel cs3).map
                (fun p => (Char.ofNat (((a * 16 + b) * 16 + v3) * 16 + v4) :: p.1, p.2))
            | _, _, _, _ => none
          | _ => none
        else
          match unescapeChar e with
          | some ch => (parseStringBody fuel cs2).map (fun p => (ch :: p.1, p.2))
          | none => none
    else (parseStringBody fuel cs).map (fun p => (c :: p.1, p.2))

mutual

/-- Fuel-indexed parser for one JSON value (the core of `JSON.parse` on
the canonical compact form). -/
def parseVal : Nat → List Char → Option (Json × List Char)
  | 0, _ => none
  | _ + 1, [] => none
  | fuel + 1, c :: cs =>
    if c = 'n' then
      match cs with
      | 'u' :: 'l' :: 'l' :: rest => some (.null, rest)
      | _ => none
    else if c = 't' then
      match cs with
      | 'r' :: 'u' :: 'e' :: rest => some (.bool true, rest)
      | _ => none
    else if c = 'f' then
      match cs with
      | 'a' :: 'l' :: 's' :: 'e' :: rest => some (.bool false, rest)
      | _ => none
    else if c = '"' then
      (parseStringBody fuel cs).map (fun p => (.str (String.mk p.1), p.2))
    else if c = '[' then
      match cs with
      | ']' :: rest => some (.arr [], rest)
      | _ => (parseItems fuel cs).map (fun p => (.arr p.1, p.2))
    else if c = lbrace then
      match cs with
      | d :: rest => if d = rbrace then some (.obj [], rest)
                     else (parseFields fuel (d :: rest)).map (fun p => (.obj p.1, p.2))
      | [] => none
    else if c = '-' then
      match cs with
      | d :: _ =>
        if isDigitChar d then
          let p := parseDigitsAcc 0 cs
          some (.num (-(p.1 : Int)), p.2)
        else none
      | [] => none
    else if isDigitChar c then
      let p := parseDigitsAcc 0 (c :: cs)
      some (.num (p.1 : Int), p.2)
    else none

/-- Parse one or more comma-separated array elements and the closing
bracket. -/
def parseItems : Nat → List Char → Option (List Json × List Char)
  | 0, _ => none
  | fuel + 1, s =>
    match parseVal fuel s with
    | some (v, ',' :: rest) => (parseItems fuel rest).map (fun p => (v :: p.1, p.2))
    | some (v, ']' :: rest) => some ([v], rest)
    | _ => none

/-- Parse one or more comma-separated object fields and the closing
brace. -/
def parseFields : Nat → List Char → Option (List (String × Json) × List Char)
  | 0, _ => none
  | fuel + 1, s =>
    match s with
    | '"' :: cs =>
      match parseStringBody fuel cs with
      | some (key, ':' :: rest) =>
        match parseVal fuel rest with
        | some (v, ',' :: rest2) =>
          (parseFields fuel rest2).map (fun p => ((String.mk key, v) :: p.1, p.2))
        | some (v, d :: rest2) =>
          if d = rbrace then some ([(String.mk key, v)], rest2) else none
        | _ => none
      | _ => none
    | _ => none

end

/-- `JSON.parse` on a whole input: one value consuming the entire string.
The fuel is sized off the input; `parseVal` consumes at least one
character per fuel step, so the input length suffices. -/
def parseJson (s : String) : Option Json :=
  match parseVal (s.data.length + 1) s.data with
  | some (j, []) => some j
  | _ => none

/-- `JSONMessageAdapter.serialize`: `JSON.stringify(message)`. -/
def serialize (m : MCPMessage) : String :=
  String.mk (renderJson (encodeMessage m))

/-- The failure modes of `deserialize`: a `JSON.parse` failure (malformed
input) or the structural `Invalid MCP message format` error from the
`validate` gate; both are rethrown wrapped in `Failed to deserialize
message`. -/
inductive DeserializeError : Type where
  | parseError : DeserializeError
  | invalidFormat : DeserializeError
  deriving Repr, DecidableEq

/-- `JSONMessageAdapter.deserialize`: parse, gate on `validate`, return
the parsed object (as a typed envelope). -/
def deserialize (s : String) : Except DeserializeError MCPMessage :=
  match parseJson s with
  | none => .error .parseError
  | some j =>
    if validate j then
      match decodeMessage j with
      | some m => .ok m
      | none => .error .invalidFormat
    else .error .invalidFormat

/-! ### Correlation Tracker

`CorrelationTracker` (src/unnamed/part_000).  The pending-request `Map` is
modelled as an association list in insertion order; the armed `setTimeout`
handle and the resolve/reject continuations are not representable, so a
pending entry carries the inspectable fields and the timer firing is
modelled by the `handleTimeout` state transition. -/

/-- One pending request (`PendingRequest`, part_000 lines 3–12). -/
structure PendingRequest : Type where
  id : RpcId
  method : String
  timestamp : Nat
  retries : Nat
  maxRetries : Nat
  deriving Repr, DecidableEq

/-- `CorrelationConfig` (part_000 lines 14–19). -/
structure CorrelationConfig : Type where
  defaultTimeout : Nat
  maxRetries : Nat
  cleanupInterval : Nat
  enableMetrics : Bool

/-- The pending-request map, insertion ordered. -/
abbrev Tracker := List (RpcId × PendingRequest)

/-- `Map.prototype.get`. -/
def lookupReq (t : Tracker) (i : RpcId) : Option PendingRequest :=
  (t.find? (fun p => p.1 = i)).map (fun p => p.2)

/-- `Map.prototype.delete`. -/
def removeReq (t : Tracker) (i : RpcId) : Tracker :=
  t.eraseP (fun p => p.1 = i)

/-- JavaScript `a || b` on an optional numeric argument: `undefined` and
`0` both fall back to the default. -/
def orDefault (v : Option Nat) (d : Nat) : Nat :=
  match v with
  | some n => if n = 0 then d else n
  | none => d

/-- `CorrelationTracker.trackRequest` (part_000 lines 48–86): requires a
truthy id, fails on a duplicate id, otherwise inserts a fresh pending
entry.  A stateful method that may throw is embedded as the pair of the
resulting map and the thrown error (`none` = returned normally); both
throws here happen before any mutation, so the map comes back unchanged. -/
def trackRequest (t : Tracker) (message : MCPMessage) (now : Nat)
    (timeout : Option Nat := none) (maxRetries : Option Nat := none)
    (cfg : CorrelationConfig) : Tracker × Option String :=
  match message.id with
  | none => (t, some "Message must have an ID for correlation tracking")
  | some i =>
    if !idTruthy (some i) then
      (t, some "Message must have an ID for correlation tracking")
    else if (lookupReq t i).isSome then
      (t, some "Request with this ID is already being tracked")
    else
      let _requestTimeout := orDefault timeout cfg.defaultTimeout
      let requestMaxRetries := orDefault maxRetries cfg.maxRetries
      (t ++ [(i, { id := i, method := message.method.getD "unknown",
                   timestamp := now, retries := 0,
                   maxRetries := requestMaxRetries })], none)

/-- `CorrelationTracker.handleResponse` (part_000 lines 89–118): a falsy id
or an untracked id returns `false` and leaves the map untouched; otherwise
the entry is removed (and its waiter resolved or rejected) and the call
returns `true`. -/
def handleResponse (t : Tracker) (response : MCPMessage) : Tracker × Bool :=
  match response.id with
  | none => (t, false)
  | some i =>
    if !idTruthy (some i) then (t, false)
    else
      match lookupReq t i with
      | none => (t, false)
      | some _ => (removeReq t i, true)

/-- `CorrelationTracker.handleTimeout` (part_000 lines 121–137): fired
timer; removes the entry (rejecting its waiter) when still present. -/
def handleTimeout (t : Tracker) (requestId : RpcId) : Tracker :=
  match lookupReq t requestId with
  | none => t
  | some _ => removeReq t requestId

/-- `CorrelationTracker.retryRequest` (part_000 lines 140–187).  The
`sendFn` outcome is passed in as data (`none` = resolves, `some e` =
rejects with `e`).  Embedded as resulting map plus thrown error: on
max-retries and on a failing send, the code deletes the entry BEFORE
rethrowing, so those error results carry the shrunken map. -/
def retryRequest (t : Tracker) (originalMessage : MCPMessage) (now : Nat)
    (sendResult : Option String) : Tracker × Option String :=
  match originalMessage.id with
  | none => (t, some "Cannot retry message without ID")
  | some i =>
    if !idTruthy (some i) then (t, some "Cannot retry message without ID")
    else
      match lookupReq t i with
      | none => (t, some "No pending request found for this ID")
      | some pendingRequest =>
        if pendingRequest.retries ≥ pendingRequest.maxRetries then
          (removeReq t i, some "Max retries exceeded for request")
        else
          let t' := t.map (fun p =>
            if p.1 = i then
              (p.1, { p.2 with retries := p.2.retries + 1, timestamp := now })
            else p)
          match sendResult with
          | none => (t', none)
          | some e => (removeReq t' i, some e)

/-- `CorrelationTracker.cancelRequest` (part_000 lines 190–208). -/
def cancelRequest (t : Tracker) (requestId : RpcId) : Tracker × Bool :=
  match lookupReq t requestId with
  | none => (t, false)
  | some _ => (removeReq t requestId, true)

/-- `CorrelationTracker.cancelAllRequests` (part_000 lines 211–228). -/
def cancelAllRequests (t : Tracker) : Tracker × Nat :=
  ([], t.length)

/-- At most one pending entry per id: the keys of the map are distinct. -/
def keysNodup (t : Tracker) : Prop :=
  (t.map Prod.fst).Nodup

/-! ### Reconnection Engine

`ReconnectionHandler` (src/src/transports/websocket/reconnection-handler.ts).
Delay arithmetic is over `ℚ` with `Int.floor` for `Math.floor`;
`Math.random()` is passed in as a rational `rand` with `0 ≤ rand < 1`. -/

/-- `ReconnectionConfig` (reconnection-handler.ts lines 1–10). -/
structure ReconnectionConfig : Type where
  maxAttempts : Nat
  initialDelay : ℚ
  maxDelay : ℚ
  backoffFactor : ℚ
  jitter : Bool

/-- The handler's mutable fields. -/
structure ReconnectionState : Type where
  attempts : Nat := 0
  isReconnecting : Bool := false
  deriving Repr, DecidableEq

/-- `ReconnectionHandler.calculateDelay` (lines 51–66): exponential
backoff, capped at `maxDelay`, then up to 25% jitter of the capped value,
then `Math.floor`. -/
def calculateDelay (cfg : ReconnectionConfig) (attempts : Nat) (rand : ℚ) : ℤ :=
  let delay := cfg.initialDelay * cfg.backoffFactor ^ (attempts - 1)
  let capped := min delay cfg.maxDelay
  let jittered := if cfg.jitter then capped + rand * (capped * (1 / 4)) else capped
  ⌊jittered⌋

/-- The observable outcome of one `attemptReconnection` call (lines
19–49): silently skipped because a reconnection is in flight, skipped with
the max-attempts callback, or an attempt scheduled after a computed
delay. -/
inductive AttemptOutcome : Type where
  | skippedReconnecting : AttemptOutcome
  | skippedMaxAttempts : AttemptOutcome
  | scheduled : ℤ → ReconnectionState → AttemptOutcome

/-- `ReconnectionHandler.attemptReconnection` entry (lines 19–36): the
attempt counter is incremented before the delay is computed, so attempt
number `k` uses exponent `k - 1`. -/
def attemptReconnection (cfg : ReconnectionConfig) (st : ReconnectionState)
    (rand : ℚ) : AttemptOutcome :=
  if st.isReconnecting then .skippedReconnecting
  else if st.attempts ≥ cfg.maxAttempts then .skippedMaxAttempts
  else
    let st' : ReconnectionState := { attempts := st.attempts + 1, isReconnecting := true }
    .scheduled (calculateDelay cfg st'.attempts rand) st'

/-- `ReconnectionHandler.reset` (lines 74–82). -/
def reset (_st : ReconnectionState) : ReconnectionState :=
  { attempts := 0, isReconnecting := false }

/-- `ReconnectionHandler.onSuccessfulReconnect` (lines 68–72): runs after
the supplied reconnect function resolves; calls `reset`. -/
def onSuccessfulReconnect (st : ReconnectionState) : ReconnectionState :=
  reset st

/-! ### Message Translator

`MessageTranslator` (src/src/protocol/translator.ts).  A rule's `transform`
may throw or reject; that is the `.error` result. -/

/-- `TranslationRule` (translator.ts lines 3–8). -/
structure TranslationRule : Type where
  name : String
  condition : MCPMessage → Bool
  transform : MCPMessage → Except String MCPMessage

/-- `TranslatorConfig` (translator.ts lines 10–14). -/
structure TranslatorConfig : Type where
  enableValidation : Bool := true
  throwOnValidationError : Bool := false
  logTranslations : Bool := false

/-- `MessageTranslator.isValidMCPMessage` (translator.ts lines 110–124):
the same discriminant as the adapter's `validate`, on a typed message. -/
def isValidMCPMessage (m : MCPMessage) : Bool :=
  m.jsonrpc = "2.0"
    && ((m.method.isSome && m.id.isSome)
      || (m.id.isSome && (m.result.isSome || m.error.isSome))
      || (m.method.isSome && !m.id.isSome))

/-- The rule-application loop of `translate` (translator.ts lines 69–89):
each rule of the already-selected list is applied to the accumulated
result; a failing transform aborts with that rule's error; when validation
is enabled, an invalid intermediate result throws only when
`throwOnValidationError` is set (otherwise it is just logged). -/
def applyRules (cfg : TranslatorConfig) : List TranslationRule → MCPMessage → Except String MCPMessage
  | [], m => .ok m
  | rule :: rs, m =>
    match rule.transform m with
    | .error e => .error e
    | .ok m' =>
      if cfg.enableValidation && !isValidMCPMessage m' then
        if cfg.throwOnValidationError then
          .error "Translation rule produced invalid message"
        else applyRules cfg rs m'
      else applyRules cfg rs m'

/-- `MessageTranslator.translate` (translator.ts lines 55–92): the
applicable subset is selected by evaluating every rule's `condition`
against the incoming message, then the subset is applied in order. -/
def translate (cfg : TranslatorConfig) (rules : List TranslationRule)
    (message : MCPMessage) : Except String MCPMessage :=
  let applicableRules := rules.filter (fun rule => rule.condition message)
  if applicableRules.isEmpty then .ok message
  else applyRules cfg applicableRules message

/-! ### Message Router

`MessageRouter` (src/src/protocol/message-router.ts).  String patterns are
compiled by token (`{name}` → one-or-more non-`/` characters, `*` → any
characters, everything else literal, whole-string anchored), which is the
language of the regex built on lines 91–101.  The named-capture parameter
maps are not modelled: `processRoute` never reads `match.params`, so
dispatch is unaffected.  `RegExp` route patterns (used as-is by the code)
are modelled as an opaque predicate on the method string.  A middleware is
modelled as a gate that either throws or calls `next()` exactly once —
the shape of every built-in middleware (rate limit, auth, metrics). -/

/-- One token of a compiled string pattern. -/
inductive PatTok : Type where
  | lit : Char → PatTok
  | hole : String → PatTok
  | star : PatTok

/-- Compilation of a string pattern into tokens (`matchStringPattern`,
lines 91–101): each `{name}` group (non-empty, closed) becomes a named
hole, `*` becomes a wildcard, other characters are literals; a `{` with no
matching non-empty `}` group is left literal, as the regex replace would
leave it.  (Literal tokens model ordinary pattern characters — method
patterns are conventionally alphanumerics, `/` and `{name}` groups; the
code does not escape regex metacharacters, which such patterns do not
contain.)  The second argument is `some acc` while scanning inside a
`{...}` group, holding the name read so far in reverse. -/
def compileTokens : List Char → Option (List Char) → List PatTok
  | [], none => []
  | [], some acc =>
    .lit lbrace :: acc.reverse.map (fun c => if c = '*' then .star else .lit c)
  | c :: cs, none =>
    if c = lbrace then compileTokens cs (some [])
    else if c = '*' then .star :: compileTokens cs none
    else .lit c :: compileTokens cs none
  | c :: cs, some acc =>
    if c = rbrace then
      if acc.isEmpty then .lit lbrace :: .lit rbrace :: compileTokens cs none
      else .hole (String.mk acc.reverse) :: compileTokens cs none
    else compileTokens cs (some (c :: acc))

/-- Pattern tokens for a whole pattern string. -/
def compilePattern (pattern : String) : List PatTok :=
  compileTokens pattern.data none

/-- Anchored matching of the compiled pattern against the method string:
`lit` consumes its character, `hole` consumes one or more non-`/`
characters (`[^/]+`), `star` consumes any characters (`.*`); the whole
input must be consumed (`^...$`). -/
def tokMatch : List PatTok → List Char → Bool
  | [], ds => ds.isEmpty
  | .lit _ :: _, [] => false
  | .lit c :: ts, d :: ds => c = d && tokMatch ts ds
  | .star :: ts, [] => tokMatch ts []
  | .star :: ts, d :: ds => tokMatch ts (d :: ds) || tokMatch (.star :: ts) ds
  | .hole _ :: _, [] => false
  | .hole n :: ts, d :: ds => !(d = '/') && (tokMatch ts ds || tokMatch (.hole n :: ts) ds)
  termination_by ts ds => (ds.length, ts.length)

/-- A route pattern: a string pattern or a regular expression (modelled by
its matching predicate). -/
inductive RoutePattern : Type where
  | strPat : String → RoutePattern
  | regexPat : (String → Bool) → RoutePattern

/-- `MessageTransformer` (message-router.ts lines 10–13). -/
structure MessageTransformer : Type where
  name : String
  transform : MCPMessage → Except String MCPMessage

/-- `RouteMiddleware` (message-router.ts lines 15–18), as a gate. -/
structure RouteMiddleware : Type where
  name : String
  gate : MCPMessage → Except String Unit

/-- `RouteConfig` (message-router.ts lines 3–8). -/
structure RouteConfig : Type where
  pattern : RoutePattern
  destination : String
  transformers : List MessageTransformer := []
  middleware : List RouteMiddleware := []

/-- The router's state: routes in registration order, global middleware in
registration order, and the names with a registered destination handler. -/
structure MessageRouter : Type where
  routes : List RouteConfig := []
  globalMiddleware : List RouteMiddleware := []
  destinations : List String := []

/-- `MessageRouter.matchRoute` (lines 78–89). -/
def matchRoute (method : String) : RoutePattern → Bool
  | .strPat p => tokMatch (compilePattern p) method.data
  | .regexPat f => f method

/-- `MessageRouter.findMatches` (lines 64–76): every route whose pattern
matches `message.method || ''`. -/
def findMatches (r : MessageRouter) (message : MCPMessage) : List RouteConfig :=
  r.routes.filter (fun route => matchRoute (message.method.getD "") route.pattern)

/-- Sequential application of a route's transformers (lines 114–119,
135–145): each may fail, aborting that route. -/
def applyTransformers : List MessageTransformer → MCPMessage → Except String MCPMessage
  | [], m => .ok m
  | tr :: trs, m =>
    match tr.transform m with
    | .ok m' => applyTransformers trs m'
    | .error e => .error e

/-- `MessageRouter.executeMiddlewareChain` (lines 147–164) for gate-shaped
middleware: the recursive `next()` runs the rest of the chain, ending in
the final handler. -/
def executeMiddlewareChain {α : Type} (message : MCPMessage) :
    List RouteMiddleware → Except String α → Except String α
  | [], finalHandler => finalHandler
  | mw :: mws, finalHandler =>
    match mw.gate message with
    | .ok _ => executeMiddlewareChain message mws finalHandler
    | .error e => .error e

/-- `MessageRouter.sendToDestination` (lines 166–177): an unregistered
destination is an error; a registered handler receives the message, which
the embedding records as the returned delivery. -/
def sendToDestination (r : MessageRouter) (message : MCPMessage)
    (destinationName : String) : Except String (String × MCPMessage) :=
  if r.destinations.contains destinationName then .ok (destinationName, message)
  else .error "Destination not found"

/-- `MessageRouter.processRoute` (lines 107–133): transformers, then the
chain of global middleware followed by route middleware, terminating in
delivery to the destination. -/
def processRoute (r : MessageRouter) (message : MCPMessage)
    (route : RouteConfig) : Except String (String × MCPMessage) :=
  match applyTransformers route.transformers message with
  | .error e => .error e
  | .ok processedMessage =>
    executeMiddlewareChain processedMessage (r.globalMiddleware ++ route.middleware)
      (sendToDestination r processedMessage route.destination)

/-- `Promise.all`: every branch must succeed; the embedding surfaces the
first (in route order) rejection. -/
def collectAll {ε α : Type} : List (Except ε α) → Except ε (List α)
  | [] => .ok []
  | .ok a :: xs => (collectAll xs).map (fun as => a :: as)
  | .error e :: _ => .error e

/-- `MessageRouter.route` (lines 51–62): fan-out to every matching route;
an empty match set is the no-route error. -/
def route (r : MessageRouter) (message : MCPMessage) :
    Except String (List (String × MCPMessage)) :=
  let ms := findMatches r message
  if ms.isEmpty then .error "No route found for message"
  else collectAll (ms.map (processRoute r message))

/-! ### Subprocess Pool

`ProcessPool.send` (src/src/index.ts, part `process-pool.ts`, lines
506–539).  Each owned `ContainerManager` is reduced to the outcome its
`send` would have (`none` = resolves, `some e` = rejects with `e`), which
is all `ProcessPool.send` observes.  `handleInstanceFailure` is invoked
without `await`; its synchronous prefix (removing the id from the active
set) runs before the retry logic, while the suspended continuation
(close, restart, top-up) does not — so the instance map is unchanged
during the retry. -/

/-- A pool slot's channel, by its observable send outcome. -/
structure PoolInstance : Type where
  sendResult : Option String

/-- The pool's mutable fields. -/
structure ProcessPool : Type where
  instances : List (String × PoolInstance)
  activeInstances : List String
  roundRobinIndex : Nat

/-- `Map.prototype.get` on the instance map. -/
def lookupInst (l : List (String × PoolInstance)) (id : String) : Option PoolInstance :=
  (l.find? (fun p => p.1 = id)).map (fun p => p.2)

/-- What a `poolSend` resolution delivered. -/
inductive SendOutcome : Type where
  | delivered : String → SendOutcome
  | silentDrop : SendOutcome
  deriving Repr, DecidableEq

/-- `ProcessPool.send` (lines 506–539): round-robin pick from the captured
active-id list; on failure remove the failing id from the active set and,
if the captured list had more than one element, retry once against the
next id of the captured list — silently resolving when that id is no
longer in the instance map; with no other active instance the original
error propagates. -/
def poolSend (p : ProcessPool) : Except String (SendOutcome × ProcessPool) :=
  let activeInstanceIds := p.activeInstances
  if activeInstanceIds.isEmpty then .error "No active instances available"
  else
    let instanceId := activeInstanceIds.getD (p.roundRobinIndex % activeInstanceIds.length) ""
    let rr := p.roundRobinIndex + 1
    match lookupInst p.instances instanceId with
    | none => .error "Instance not found"
    | some instance_ =>
      match instance_.sendResult with
      | none => .ok (.delivered instanceId, { p with roundRobinIndex := rr })
      | some err =>
        let p' : ProcessPool :=
          { p with roundRobinIndex := rr,
                   activeInstances := p.activeInstances.erase instanceId }
        if activeInstanceIds.length > 1 then
          let nextInstanceId := activeInstanceIds.getD (rr % activeInstanceIds.length) ""
          match lookupInst p.instances nextInstanceId with
          | some nextInstance =>
            match nextInstance.sendResult with
            | none => .ok (.delivered nextInstanceId, p')
            | some err2 => .error err2
          | none => .ok (.silentDrop, p')
        else .error err

/-! ### Base transport metrics

`BaseTransport` (src/src/transports/base/transport-interface.ts, lines
66–123).  To express that `getMetrics` returns a COPY (`{ ...this.metrics }`)
rather than a reference, mutable records live in an explicit store of
records addressed by references; `getMetrics` allocates a fresh record,
while `handleMessage` / `handleError` / `incrementSentMessages` update the
transport's own record in place. -/

/-- `TransportMetrics` (lines 21–27); times as naturals. -/
structure TransportMetrics : Type where
  messagesSent : Nat
  messagesReceived : Nat
  errors : Nat
  connectionTime : Nat
  lastActivity : Nat
  deriving Repr, DecidableEq, Inhabited

/-- The store of mutable metric records. -/
abbrev MetricsStore := List TransportMetrics

/-- Dereference (references are indices into the store). -/
def readRef (σ : MetricsStore) (r : Nat) : Option TransportMetrics :=
  σ.get? r

/-- In-place update of a record. -/
def writeRef (σ : MetricsStore) (r : Nat) (v : TransportMetrics) : MetricsStore :=
  σ.set r v

/-- Allocation of a fresh record. -/
def allocRef (σ : MetricsStore) (v : TransportMetrics) : MetricsStore × Nat :=
  (σ ++ [v], σ.length)

/-- A transport's share of the store: the reference to its own metrics
record. -/
structure BaseTransportState : Type where
  metricsRef : Nat

/-- `BaseTransport.getMetrics` (lines 100–102): `return { ...this.metrics }`
— a fresh shallow copy of the current record. -/
def getMetrics (σ : MetricsStore) (t : BaseTransportState) : MetricsStore × Nat :=
  allocRef σ ((readRef σ t.metricsRef).getD default)

/-- `BaseTransport.handleMessage` (lines 104–108): `messagesReceived++`,
`lastActivity = new Date()`, then subscriber dispatch. -/
def handleMessage (σ : MetricsStore) (t : BaseTransportState) (now : Nat) : MetricsStore :=
  match readRef σ t.metricsRef with
  | some m => writeRef σ t.metricsRef
      { m with messagesReceived := m.messagesReceived + 1, lastActivity := now }
  | none => σ

/-- `BaseTransport.handleError` (lines 110–113): `errors++`. -/
def handleError (σ : MetricsStore) (t : BaseTransportState) : MetricsStore :=
  match readRef σ t.metricsRef with
  | some m => writeRef σ t.metricsRef { m with errors := m.errors + 1 }
  | none => σ

/-- `BaseTransport.incrementSentMessages` (lines 119–122):
`messagesSent++`, `lastActivity = new Date()`. -/
def incrementSentMessages (σ : MetricsStore) (t : BaseTransportState) (now : Nat) : MetricsStore :=
  match readRef σ t.metricsRef with
  | some m => writeRef σ t.metricsRef
      { m with messagesSent := m.messagesSent + 1, lastActivity := now }
  | none => σ

/-! ### Auxiliary definitions for the proofs -/

mutual

/-- Fuel sufficient for `parseVal` to parse the rendering of a value. -/
def pbound : Json → Nat
  | .null => 1
  | .bool _ => 1
  | .num _ => 1
  | .str s => (s.data.flatMap escapeChar).length + 2
  | .arr xs => 1 + pboundItems xs
  | .obj fs => 1 + pboundFields fs

/-- Fuel sufficient for `parseItems` on rendered elements. -/
def pboundItems : List Json → Nat
  | [] => 1
  | x :: xs => 1 + max (pbound x) (pboundItems xs)

/-- Fuel sufficient for `parseFields` on rendered fields. -/
def pboundFields : List (String × Json) → Nat
  | [] => 1
  | f :: fs =>
    1 + max ((f.1.data.flatMap escapeChar).length + 1)
        (max (pbound f.2) (pboundFields fs))

end

/-- The continuation after a rendered number must not begin with a digit
(in rendered JSON it is always a separator or the end of input). -/
def noLeadDigit : List Char → Prop
  | [] => True
  | c :: _ => isDigitChar c = false

/-- A message carrying BOTH `result` and `error` (and no `method`): claim
C1's discriminant calls this invalid, `validate` accepts it. -/
def bothResultAndError : Json :=
  .obj [("jsonrpc", .str "2.0"), ("id", .num 1), ("result", .num 1),
        ("error", .obj [("code", .num 1), ("message", .str "boom")])]

/-- A configuration whose backoff product is not an integer at attempt 2:
`999 * (3/2)^1 = 1498.5`, which `Math.floor` truncates to `1498`. -/
def fracCfg : ReconnectionConfig :=
  { maxAttempts := 5, initialDelay := 999, maxDelay := 5000,
    backoffFactor := 3 / 2, jitter := false }

/-! ## Theorems -/

/-- Keys of the pending map are untouched by an entry-preserving map. -/
theorem lookupReq_eq_none_iff (t : Tracker) (i : RpcId) :
    lookupReq t i = none ↔ i ∉ t.map Prod.fst := by
  simp only [lookupReq, Option.map_eq_none', List.find?_eq_none, List.mem_map,
    decide_eq_true_eq]
  constructor
  · rintro h ⟨p, hp, rfl⟩
    exact h p hp rfl
  · rintro h p hp rfl
    exact h ⟨p, hp, rfl⟩

/-- `removeReq` keeps the key list a sublist, hence keeps it duplicate
free. -/
theorem keysNodup_removeReq (t : Tracker) (i : RpcId) (h : keysNodup t) :
    keysNodup (removeReq t i) :=
  h.sublist ((List.eraseP_sublist t).map Prod.fst)

/-- The in-place retry update of the pending map keeps its key list. -/
theorem keys_retryUpdate (t : Tracker) (i : RpcId) (now : Nat) :
    (t.map (fun p =>
      if p.1 = i then (p.1, { p.2 with retries := p.2.retries + 1, timestamp := now })
      else p)).map Prod.fst = t.map Prod.fst := by
  rw [List.map_map]
  refine List.map_congr_left ?_
  intro q _
  by_cases hq : q.1 = i <;> simp [hq]

/-- C2: the Correlation Tracker holds at most one pending request per id:
`trackRequest` on an id that is already tracked throws an error and hands
back the pending map unchanged, and every operation preserves
distinctness of the pending ids. -/
theorem tracker_at_most_one_pending (t : Tracker) (cfg : CorrelationConfig)
    (h : keysNodup t) :
    (∀ (msg : MCPMessage) (now : Nat) (tmo mr : Option Nat) (i : RpcId),
      msg.id = some i → (lookupReq t i).isSome →
      ∃ e, trackRequest t msg now tmo mr cfg = (t, some e)) ∧
    (∀ (msg : MCPMessage) (now : Nat) (tmo mr : Option Nat),
      keysNodup (trackRequest t msg now tmo mr cfg).1) ∧
    (∀ resp : MCPMessage, keysNodup (handleResponse t resp).1) ∧
    (∀ i : RpcId, keysNodup (handleTimeout t i)) ∧
    (∀ (msg : MCPMessage) (now : Nat) (sendResult : Option String),
      keysNodup (retryRequest t msg now sendResult).1) ∧
    (∀ i : RpcId, keysNodup (cancelRequest t i).1) ∧
    keysNodup (cancelAllRequests t).1 := by
  refine ⟨?_, ?_, ?_, ?_, ?_, ?_, ?_⟩
  · intro msg now tmo mr i hid hsome
    simp only [trackRequest, hid]
    by_cases ht : idTruthy (some i)
    · simp [ht, hsome]
    · simp [ht]
  · intro msg now tmo mr
    simp only [trackRequest]
    rcases hid : msg.id with _ | i
    · exact h
    · cases ht : idTruthy (some i) with
      | false => simpa [ht] using h
      | true =>
        cases hdup : (lookupReq t i).isSome with
        | true => simpa [ht, hdup] using h
        | false =>
          simp only [ht, hdup, Bool.not_true, Bool.not_false, if_true, if_false,
            Bool.false_eq_true, reduceIte]
          have hi : i ∉ t.map Prod.fst := by
            rw [← lookupReq_eq_none_iff]
            exact Option.not_isSome_iff_eq_none.mp (by simp [hdup])
          have hi2 : ∀ x : PendingRequest, (i, x) ∉ t := fun x hx =>
            hi (List.mem_map.mpr ⟨(i, x), hx, rfl⟩)
          simpa [keysNodup, List.nodup_append] using ⟨h, hi2⟩
  · intro resp
    simp only [handleResponse]
    rcases resp.id with _ | i
    · exact h
    · by_cases ht : idTruthy (some i)
      · rcases hl : lookupReq t i with _ | p
        · simpa [ht, hl] using h
        · simpa [ht, hl] using keysNodup_removeReq t i h
      · simpa [ht] using h
  · intro i
    simp only [handleTimeout]
    rcases hl : lookupReq t i with _ | p
    · exact h
    · exact keysNodup_removeReq t i h
  · intro msg now sendResult
    simp only [retryRequest]
    rcases hid : msg.id with _ | i
    · exact h
    · cases ht : idTruthy (some i) with
      | false => simpa [ht] using h
      | true =>
        rcases hl : lookupReq t i with _ | p
        · simpa [ht, hl] using h
        · have hupd : keysNodup (t.map (fun p =>
              if p.1 = i then
                (p.1, { p.2 with retries := p.2.retries + 1, timestamp := now })
              else p)) := by
            unfold keysNodup
            rw [keys_retryUpdate]
            exact h
          by_cases hmax : p.retries ≥ p.maxRetries
          · simpa [ht, hl, hmax] using keysNodup_removeReq t i h
          · rcases hsr : sendResult with _ | e
            · simpa [ht, hl, hmax, hsr] using hupd
            · simpa [ht, hl, hmax, hsr] using keysNodup_removeReq _ i hupd
  · intro i
    simp only [cancelRequest]
    rcases hl : lookupReq t i with _ | p
    · exact h
    · exact keysNodup_removeReq t i h
  · simp [cancelAllRequests, keysNodup]

/-- Witness for C2 at a concrete state: the id 7 is tracked, so tracking
it again fails and the map is handed back unchanged. -/
theorem tracker_at_most_one_pending_witness :
    ∃ e, trackRequest
      [(RpcId.num 7, { id := .num 7, method := "m", timestamp := 0,
                       retries := 0, maxRetries := 3 })]
      { id := some (.num 7), method := some "m" } 5 none none
      { defaultTimeout := 100, maxRetries := 3, cleanupInterval := 50,
        enableMetrics := false }
      = ([(RpcId.num 7, { id := .num 7, method := "m", timestamp := 0,
                          retries := 0, maxRetries := 3 })], some e) := by
  refine (tracker_at_most_one_pending _ _ ?_).1 _ 5 none none (.num 7) rfl ?_
  · simp [keysNodup]
  · simp [lookupReq]

/-- C8: a present-but-falsy id (the number 0 or the empty string) can never
be correlated: `trackRequest` rejects with the missing-id error and
`handleResponse` returns `false` leaving the map unchanged. -/
theorem falsy_id_never_correlated (t : Tracker) (cfg : CorrelationConfig)
    (msg : MCPMessage)
    (h : msg.id = some (.num 0) ∨ msg.id = some (.str "")) :
    (∀ (now : Nat) (tmo mr : Option Nat),
      trackRequest t msg now tmo mr cfg
        = (t, some "Message must have an ID for correlation tracking")) ∧
    handleResponse t msg = (t, false) := by
  rcases h with h | h <;>
    exact ⟨fun now tmo mr => by simp [trackRequest, h, idTruthy],
           by simp [handleResponse, h, idTruthy]⟩

/-- Witness for C8 at the concrete id `0`. -/
theorem falsy_id_never_correlated_witness :
    trackRequest [] { id := some (.num 0) } 0 none none
      { defaultTimeout := 100, maxRetries := 3, cleanupInterval := 50,
        enableMetrics := false }
      = ([], some "Message must have an ID for correlation tracking") ∧
    handleResponse [] { id := some (.num 0) } = ([], false) := by
  have := falsy_id_never_correlated []
    { defaultTimeout := 100, maxRetries := 3, cleanupInterval := 50,
      enableMetrics := false }
    { id := some (.num 0) } (Or.inl rfl)
  exact ⟨this.1 0 none none, this.2⟩

/-- C5: pool failover.  With exactly one active slot whose send fails, the
slot's original error propagates; with two active slots and the selected
one failing, the send is retried once on the other slot and resolves
successfully when that retry succeeds. -/
theorem pool_send_failover (p : ProcessPool) :
    (∀ (a : String) (inst : PoolInstance) (e : String),
      p.activeInstances = [a] → lookupInst p.instances a = some inst →
      inst.sendResult = some e → poolSend p = .error e) ∧
    (∀ (a b : String) (ia ib : PoolInstance) (e : String),
      p.activeInstances = [a, b] → p.roundRobinIndex % 2 = 0 →
      lookupInst p.instances a = some ia → ia.sendResult = some e →
      lookupInst p.instances b = some ib → ib.sendResult = none →
      ∃ p', poolSend p = .ok (.delivered b, p')) ∧
    (∀ (a b : String) (ia ib : PoolInstance) (e : String),
      p.activeInstances = [a, b] → p.roundRobinIndex % 2 = 1 →
      lookupInst p.instances b = some ib → ib.sendResult = some e →
      lookupInst p.instances a = some ia → ia.sendResult = none →
      ∃ p', poolSend p = .ok (.delivered a, p')) := by
  refine ⟨?_, ?_, ?_⟩
  · intro a inst e hact hlook hfail
    simp [poolSend, hact, hlook, hfail, Nat.mod_one]
  · intro a b ia ib e hact hrr hla hfa hlb hsb
    have hrr1 : (p.roundRobinIndex + 1) % 2 = 1 := by omega
    refine ⟨⟨p.instances, p.activeInstances.erase a, p.roundRobinIndex + 1⟩, ?_⟩
    simp [poolSend, hact, hrr, hrr1, hla, hfa, hlb, hsb]
  · intro a b ia ib e hact hrr hlb hfb hla hsa
    have hrr1 : (p.roundRobinIndex + 1) % 2 = 0 := by omega
    refine ⟨⟨p.instances, p.activeInstances.erase b, p.roundRobinIndex + 1⟩, ?_⟩
    simp [poolSend, hact, hrr, hrr1, hla, hsa, hlb, hfb]

/-- Witness for C5: a two-slot pool where slot `A` fails and slot `B`
succeeds delivers to `B`. -/
theorem pool_send_failover_witness :
    ∃ p', poolSend
      { instances := [("A", { sendResult := some "boom" }),
                      ("B", { sendResult := none })],
        activeInstances := ["A", "B"], roundRobinIndex := 0 }
      = .ok (.delivered "B", p') :=
  (pool_send_failover _).2.1 "A" "B" _ _ "boom" rfl rfl
    (by simp [lookupInst]) rfl (by simp [lookupInst]) rfl

/-- C9: when the captured active list has more than one element, the
selected slot's send fails and the fallback id is no longer in the
instance map, `poolSend` resolves successfully while delivering the
message to no instance and surfacing no error. -/
theorem pool_send_silent_drop (p : ProcessPool) (inst : PoolInstance) (e : String)
    (hlen : p.activeInstances.length > 1)
    (hsel : lookupInst p.instances
      (p.activeInstances.getD (p.roundRobinIndex % p.activeInstances.length) "")
        = some inst)
    (hfail : inst.sendResult = some e)
    (hnext : lookupInst p.instances
      (p.activeInstances.getD ((p.roundRobinIndex + 1) % p.activeInstances.length) "")
        = none) :
    ∃ p', poolSend p = .ok (.silentDrop, p') := by
  have hne : p.activeInstances.isEmpty = false := by
    cases hact : p.activeInstances with
    | nil => rw [hact] at hlen; simp at hlen
    | cons x xs => simp [hact]
  have hsel' : lookupInst p.instances
      (p.activeInstances[p.roundRobinIndex % p.activeInstances.length]?.getD "")
        = some inst := by simpa [List.getD] using hsel
  have hnext' : lookupInst p.instances
      (p.activeInstances[(p.roundRobinIndex + 1) % p.activeInstances.length]?.getD "")
        = none := by simpa [List.getD] using hnext
  refine ⟨⟨p.instances,
    p.activeInstances.erase
      (p.activeInstances.getD (p.roundRobinIndex % p.activeInstances.length) ""),
    p.roundRobinIndex + 1⟩, ?_⟩
  simp [poolSend, hne, hsel', hfail, hlen, hnext', List.getD]

/-- Witness for C9: captured actives `[A, B]`, `A` fails, `B` already gone
from the instance map — the send resolves with no delivery. -/
theorem pool_send_silent_drop_witness :
    ∃ p', poolSend
      { instances := [("A", { sendResult := some "boom" })],
        activeInstances := ["A", "B"], roundRobinIndex := 0 }
      = .ok (.silentDrop, p') :=
  pool_send_silent_drop _ { sendResult := some "boom" } "boom" (by simp)
    (by simp [lookupInst]) rfl (by simp [lookupInst])

/-- C6 counterexample: the delay for attempt 2 with `initialDelay = 999`,
`backoffFactor = 3/2`, `maxDelay = 5000` and jitter disabled is the
floored `1498`, not the exact `min(maxDelay, initialDelay·factor^(k−1)) =
1498.5` the claim states. -/
theorem reconnection_delay_cex :
    ¬ ((calculateDelay fracCfg 2 0 : ℚ)
      = min (fracCfg.initialDelay * fracCfg.backoffFactor ^ (2 - 1)) fracCfg.maxDelay) := by
  intro heq
  have h1 : calculateDelay fracCfg 2 0 = 1498 := by
    norm_num [calculateDelay, fracCfg]
  have h2 : min (fracCfg.initialDelay * fracCfg.backoffFactor ^ (2 - 1)) fracCfg.maxDelay
      = 2997 / 2 := by
    norm_num [fracCfg]
  rw [h1, h2] at heq
  norm_num at heq

/-- C6, amended: the computed delay is the FLOOR of the capped backoff
value; with jitter enabled at most 25% of the capped value is added (the
result stays between the floored capped value and 5/4 of it); a scheduled
attempt uses attempt number `attempts + 1`; after a successful reconnect
the attempt counter is 0. -/
theorem reconnection_delay_amended (cfg : ReconnectionConfig) (k : Nat) (rand : ℚ)
    (h0 : 0 ≤ rand) (h1 : rand < 1)
    (hd : 0 ≤ cfg.initialDelay) (hb : 0 ≤ cfg.backoffFactor) (hm : 0 ≤ cfg.maxDelay) :
    (cfg.jitter = false →
      calculateDelay cfg k rand
        = ⌊min (cfg.initialDelay * cfg.backoffFactor ^ (k - 1)) cfg.maxDelay⌋) ∧
    (cfg.jitter = true →
      ⌊min (cfg.initialDelay * cfg.backoffFactor ^ (k - 1)) cfg.maxDelay⌋
          ≤ calculateDelay cfg k rand
        ∧ (calculateDelay cfg k rand : ℚ)
          ≤ min (cfg.initialDelay * cfg.backoffFactor ^ (k - 1)) cfg.maxDelay * (5 / 4)) ∧
    (∀ st : ReconnectionState, (onSuccessfulReconnect st).attempts = 0) ∧
    (∀ (st : ReconnectionState) (d : ℤ) (st' : ReconnectionState),
      attemptReconnection cfg st rand = .scheduled d st' →
      st'.attempts = st.attempts + 1 ∧ d = calculateDelay cfg st'.attempts rand
        ∧ st'.attempts ≤ cfg.maxAttempts) := by
  have hcap : 0 ≤ min (cfg.initialDelay * cfg.backoffFactor ^ (k - 1)) cfg.maxDelay :=
    le_min (mul_nonneg hd (pow_nonneg hb _)) hm
  refine ⟨?_, ?_, ?_, ?_⟩
  · intro hj
    simp [calculateDelay, hj]
  · intro hj
    set capped := min (cfg.initialDelay * cfg.backoffFactor ^ (k - 1)) cfg.maxDelay with hc
    constructor
    · have : capped ≤ capped + rand * (capped * (1 / 4)) := by
        nlinarith
      calc ⌊capped⌋ ≤ ⌊capped + rand * (capped * (1 / 4))⌋ := Int.floor_le_floor this
        _ = calculateDelay cfg k rand := by simp [calculateDelay, hj, hc]
    · have hle : capped + rand * (capped * (1 / 4)) ≤ capped * (5 / 4) := by
        nlinarith
      calc (calculateDelay cfg k rand : ℚ)
          ≤ capped + rand * (capped * (1 / 4)) := by
            simp only [calculateDelay, hj, if_true, ← hc]
            exact Int.floor_le _
        _ ≤ capped * (5 / 4) := hle
  · intro st
    rfl
  · intro st d st' hsch
    simp only [attemptReconnection] at hsch
    by_cases hrec : st.isReconnecting
    · simp [hrec] at hsch
    · by_cases hmax : st.attempts ≥ cfg.maxAttempts
      · simp [hrec, hmax] at hsch
      · simp only [hrec, hmax, if_false, if_true, Bool.false_eq_true] at hsch
        cases hsch
        refine ⟨rfl, rfl, ?_⟩
        show st.attempts + 1 ≤ cfg.maxAttempts
        omega

/-- Witness for C6's amended theorem at the counterexample configuration:
attempt 2, no jitter, delay `⌊999·(3/2)⌋ = 1498`. -/
theorem reconnection_delay_amended_witness :
    calculateDelay fracCfg 2 0
      = ⌊min (fracCfg.initialDelay * fracCfg.backoffFactor ^ (2 - 1)) fracCfg.maxDelay⌋ :=
  (reconnection_delay_amended fracCfg 2 0 le_rfl (by norm_num)
    (by norm_num [fracCfg]) (by norm_num [fracCfg]) (by norm_num [fracCfg])).1 rfl

/-- C7: `translate` decides applicability by evaluating each rule's
predicate against the ORIGINAL message only, then applies exactly the
applicable rules in registration order to the accumulated result — so the
result equals the sequential application of the pre-filtered rule list,
and deleting any rule whose predicate rejects the original message does
not change the result. -/
theorem translate_uses_original_message (cfg : TranslatorConfig)
    (rules : List TranslationRule) (message : MCPMessage) :
    translate cfg rules message
      = applyRules cfg (rules.filter (fun r => r.condition message)) message ∧
    (∀ (pre post : List TranslationRule) (r : TranslationRule),
      rules = pre ++ r :: post → r.condition message = false →
      translate cfg rules message = translate cfg (pre ++ post) message) := by
  have key : ∀ rs : List TranslationRule,
      translate cfg rs message
        = applyRules cfg (rs.filter (fun r => r.condition message)) message := by
    intro rs
    simp only [translate]
    cases hemp : (rs.filter (fun r => r.condition message)).isEmpty with
    | true =>
      rw [List.isEmpty_eq_true] at hemp
      simp [hemp, applyRules]
    | false => rfl
  refine ⟨key rules, ?_⟩
  intro pre post r hsplit hcond
  rw [key rules, key (pre ++ post), hsplit]
  simp [List.filter_append, hcond]

/-- Witness for C7: a rule whose predicate rejects the message is not
applied even though its transform would change the message. -/
theorem translate_uses_original_message_witness :
    translate { } [{ name := "never", condition := fun _ => false,
                     transform := fun _ => .ok { method := some "changed" } }]
      { method := some "ping" }
      = translate { } [] { method := some "ping" } :=
  (translate_uses_original_message { } _ _).2 [] []
    { name := "never", condition := fun _ => false,
      transform := fun _ => .ok { method := some "changed" } } rfl rfl

/-- C10: `getMetrics` returns a copy: the fresh record is a different
reference holding the same values; writing through the returned reference
does not change the transport's record, and later message/error/send
bookkeeping does not change the returned record. -/
theorem getMetrics_returns_copy (σ : MetricsStore) (t : BaseTransportState)
    (hvalid : t.metricsRef < σ.length) :
    (getMetrics σ t).2 ≠ t.metricsRef ∧
    readRef (getMetrics σ t).1 (getMetrics σ t).2 = readRef σ t.metricsRef ∧
    (∀ v, readRef (writeRef (getMetrics σ t).1 (getMetrics σ t).2 v) t.metricsRef
      = readRef σ t.metricsRef) ∧
    (∀ now, readRef (handleMessage (getMetrics σ t).1 t now) (getMetrics σ t).2
      = readRef (getMetrics σ t).1 (getMetrics σ t).2) ∧
    (∀ now, readRef (incrementSentMessages (getMetrics σ t).1 t now) (getMetrics σ t).2
      = readRef (getMetrics σ t).1 (getMetrics σ t).2) ∧
    readRef (handleError (getMetrics σ t).1 t) (getMetrics σ t).2
      = readRef (getMetrics σ t).1 (getMetrics σ t).2 := by
  have hm : σ[t.metricsRef]? = some σ[t.metricsRef] := List.getElem?_eq_getElem hvalid
  set m := σ[t.metricsRef] with hmdef
  have hret : getMetrics σ t = (σ ++ [m], σ.length) := by
    simp [getMetrics, allocRef, readRef, List.get?_eq_getElem?, hm]
  have hne : σ.length ≠ t.metricsRef := by omega
  have hread_old : ∀ l : MetricsStore, readRef (σ ++ l) t.metricsRef = some m := by
    intro l
    simp [readRef, List.get?_eq_getElem?, List.getElem?_append_left hvalid, hm]
  have hread_new : readRef (σ ++ [m]) σ.length = some m := by
    simp [readRef, List.get?_eq_getElem?, List.getElem?_concat_length]
  have hread_orig : readRef σ t.metricsRef = some m := by
    simp [readRef, List.get?_eq_getElem?, hm]
  refine ⟨?_, ?_, ?_, ?_, ?_, ?_⟩
  · rw [hret]; exact hne
  · rw [hret]
    rw [hread_new, hread_orig]
  · intro v
    rw [hret]
    simp only [writeRef, readRef, List.get?_eq_getElem?]
    rw [List.getElem?_set_ne hne]
    have h2 := hread_old [m]
    simp only [readRef, List.get?_eq_getElem?] at h2
    rw [h2]
    exact hm.symm
  · intro now
    rw [hret]
    simp only [handleMessage]
    rw [hread_old [m]]
    simp only [writeRef, readRef, List.get?_eq_getElem?]
    rw [List.getElem?_set_ne (by omega : t.metricsRef ≠ σ.length)]
  · intro now
    rw [hret]
    simp only [incrementSentMessages]
    rw [hread_old [m]]
    simp only [writeRef, readRef, List.get?_eq_getElem?]
    rw [List.getElem?_set_ne (by omega : t.metricsRef ≠ σ.length)]
  · rw [hret]
    simp only [handleError]
    rw [hread_old [m]]
    simp only [writeRef, readRef, List.get?_eq_getElem?]
    rw [List.getElem?_set_ne (by omega : t.metricsRef ≠ σ.length)]

/-- Witness for C10 on a one-record store. -/
theorem getMetrics_returns_copy_witness :
    (getMetrics [default] ⟨0⟩).2 ≠ 0 ∧
    readRef (getMetrics [default] ⟨0⟩).1 (getMetrics [default] ⟨0⟩).2
      = readRef [default] 0 :=
  ⟨(getMetrics_returns_copy [default] ⟨0⟩ (by decide)).1,
   (getMetrics_returns_copy [default] ⟨0⟩ (by decide)).2.1⟩

/-- A middleware chain whose gates all pass runs the final handler. -/
theorem executeMiddlewareChain_all_ok {α : Type} (message : MCPMessage)
    (mws : List RouteMiddleware) (finalHandler : Except String α)
    (h : ∀ mw ∈ mws, mw.gate message = .ok ()) :
    executeMiddlewareChain message mws finalHandler = finalHandler := by
  induction mws with
  | nil => rfl
  | cons mw mws ih =>
    have hmw := h mw (List.mem_cons_self mw mws)
    simp only [executeMiddlewareChain, hmw]
    exact ih (fun m hm => h m (List.mem_cons_of_mem mw hm))

/-- A route whose transformers succeed, whose gates all pass and whose
destination is registered delivers the transformed message there. -/
theorem processRoute_ok (r : MessageRouter) (message m' : MCPMessage)
    (rt : RouteConfig)
    (htr : applyTransformers rt.transformers message = .ok m')
    (hmw : ∀ mw ∈ r.globalMiddleware ++ rt.middleware, mw.gate m' = .ok ())
    (hdest : r.destinations.contains rt.destination) :
    processRoute r message rt = .ok (rt.destination, m') := by
  simp only [processRoute, htr]
  rw [executeMiddlewareChain_all_ok m' _ _ hmw]
  have hmem : rt.destination ∈ r.destinations := by simpa using hdest
  simp [sendToDestination, hdest, hmem]

/-- `Promise.all` over branches that all succeed collects their values. -/
theorem collectAll_map_ok {β ε α : Type} (l : List β) (f : β → Except ε α) (g : β → α)
    (h : ∀ x ∈ l, f x = .ok (g x)) :
    collectAll (l.map f) = .ok (l.map g) := by
  induction l with
  | nil => rfl
  | cons x xs ih =>
    have hx := h x (List.mem_cons_self x xs)
    simp only [List.map_cons, collectAll, hx]
    rw [ih (fun y hy => h y (List.mem_cons_of_mem x hy))]
    rfl

/-- C4: `route` fails with the no-route error when no route matches; when
N ≥ 1 routes match and every transformer and middleware on those routes
succeeds and every referenced destination is registered, each matched
route's destination handler receives the (transformed) message exactly
once — the delivery list has exactly one entry per matched route, in
order. -/
theorem route_fanout (r : MessageRouter) (message : MCPMessage) :
    (findMatches r message = [] → route r message = .error "No route found for message") ∧
    (∀ T : RouteConfig → MCPMessage,
      findMatches r message ≠ [] →
      (∀ rt ∈ findMatches r message,
        applyTransformers rt.transformers message = .ok (T rt)) →
      (∀ rt ∈ findMatches r message,
        ∀ mw ∈ r.globalMiddleware ++ rt.middleware, mw.gate (T rt) = .ok ()) →
      (∀ rt ∈ findMatches r message, r.destinations.contains rt.destination) →
      route r message
        = .ok ((findMatches r message).map (fun rt => (rt.destination, T rt)))) := by
  constructor
  · intro hempty
    simp [route, hempty]
  · intro T hne htr hmw hdest
    have hok : ∀ rt ∈ findMatches r message,
        processRoute r message rt = .ok (rt.destination, T rt) := by
      intro rt hrt
      exact processRoute_ok r message (T rt) rt (htr rt hrt) (hmw rt hrt) (hdest rt hrt)
    have hnemp : (findMatches r message).isEmpty = false := by
      cases hfm : findMatches r message with
      | nil => exact absurd hfm hne
      | cons x xs => simp
    simp only [route, hnemp, Bool.false_eq_true, if_false]
    exact collectAll_map_ok (findMatches r message) _ _ hok

/-- Witness for C4: the method `tools/list` matches both `tools/{name}`
and `tools/*`; both destinations receive the message exactly once. -/
theorem route_fanout_witness :
    route
      { routes := [{ pattern := .strPat "tools/{name}", destination := "d1" },
                   { pattern := .strPat "tools/*", destination := "d2" }],
        globalMiddleware := [], destinations := ["d1", "d2"] }
      { method := some "tools/list" }
      = .ok [("d1", { method := some "tools/list" }),
             ("d2", { method := some "tools/list" })] := by
  have hfm : findMatches
      { routes := [{ pattern := .strPat "tools/{name}", destination := "d1" },
                   { pattern := .strPat "tools/*", destination := "d2" }],
        globalMiddleware := [], destinations := ["d1", "d2"] }
      { method := some "tools/list" }
      = [{ pattern := .strPat "tools/{name}", destination := "d1" },
         { pattern := .strPat "tools/*", destination := "d2" }] := by
    simp only [findMatches, List.filter]
    simp [matchRoute, compilePattern, compileTokens, tokMatch, lbrace, rbrace]
  have h := (route_fanout
    { routes := [{ pattern := .strPat "tools/{name}", destination := "d1" },
                 { pattern := .strPat "tools/*", destination := "d2" }],
      globalMiddleware := [], destinations := ["d1", "d2"] }
    { method := some "tools/list" }).2 (fun _ => { method := some "tools/list" })
    (by rw [hfm]; exact List.cons_ne_nil _ _)
    (by rw [hfm]; intro rt hrt
        simp only [List.mem_cons, List.not_mem_nil, or_false] at hrt
        rcases hrt with rfl | rfl <;> rfl)
    (by rw [hfm]; intro rt hrt mw hmw
        simp only [List.mem_cons, List.not_mem_nil, or_false] at hrt
        rcases hrt with rfl | rfl <;> simp at hmw)
    (by rw [hfm]; intro rt hrt
        simp only [List.mem_cons, List.not_mem_nil, or_false] at hrt
        rcases hrt with rfl | rfl <;> rfl)
  rw [hfm] at h
  exact h

/-- C1 counterexample: the message carrying `jsonrpc: "2.0"`, an id, and
BOTH `result` and `error` is accepted by `validate`, although the claim's
discriminant (a Response has EXACTLY ONE of result/error) calls it
invalid. -/
theorem validate_discriminant_cex :
    validate bothResultAndError = true ∧ specValidate bothResultAndError = false :=
  ⟨rfl, rfl⟩

/-- C1, amended: `validate` accepts a message iff it is a non-null object
carrying `jsonrpc === '2.0'` and AT LEAST ONE of the three forms holds —
Request (`method` a string, id present), Response (id present, AT LEAST
one of result/error present), Notification (`method` a string, id absent);
and any parsed message `validate` rejects makes `deserialize` fail with
the structural invalid-format error. -/
theorem validate_discriminant_amended (j : Json) :
    validate j = amendedValidate j ∧
    (validate j = false →
      ∀ s : String, parseJson s = some j → deserialize s = .error .invalidFormat) := by
  constructor
  · cases hobj : j.isObjectLike <;> cases htag : j.fieldIs "jsonrpc" "2.0" <;>
      simp [validate, amendedValidate, hobj, htag]
  · intro hv s hp
    simp [deserialize, hp, hv]

/-- Witness for C1's amended theorem: a message without the protocol tag
is rejected by `validate` and `deserialize` fails structurally on its
wire form. -/
theorem validate_discriminant_amended_witness :
    deserialize "\x7b\"id\":1\x7d" = .error .invalidFormat :=
  (validate_discriminant_amended (.obj [("id", .num 1)])).2 rfl
    "\x7b\"id\":1\x7d" rfl

/-! ### Round-trip of the wire codec: digits and numbers -/

/-- A decimal digit character has the expected code. -/
theorem digitChar_toNat (d : Nat) (h : d < 10) : (digitChar d).toNat = 48 + d := by
  unfold digitChar
  interval_cases d <;> decide

/-- A decimal digit character is a digit. -/
theorem isDigitChar_digitChar (d : Nat) (h : d < 10) :
    isDigitChar (digitChar d) = true := by
  simp [isDigitChar, digitChar_toNat d h]
  omega

/-- A digit character is none of the value-start characters of the other
parser branches. -/
theorem isDigitChar_not_special (c : Char) (h : isDigitChar c = true) :
    c ≠ 'n' ∧ c ≠ 't' ∧ c ≠ 'f' ∧ c ≠ '"' ∧ c ≠ '[' ∧ c ≠ lbrace ∧ c ≠ '-' ∧ c ≠ ']' := by
  have hr : 48 ≤ c.toNat ∧ c.toNat ≤ 57 := by simpa [isDigitChar] using h
  refine ⟨?_, ?_, ?_, ?_, ?_, ?_, ?_, ?_⟩ <;>
    (intro heq; subst heq; revert hr; decide)

/-- `renderNat` produces at least one character. -/
theorem renderNat_ne_nil (n : Nat) : renderNat n ≠ [] := by
  rw [renderNat]
  split <;> simp

/-- Every character of `renderNat` is a digit. -/
theorem renderNat_digits (n : Nat) : ∀ c ∈ renderNat n, isDigitChar c = true := by
  induction n using Nat.strong_induction_on with
  | _ n ih =>
    rw [renderNat]
    split
    · intro c hc
      rcases List.mem_singleton.mp hc with rfl
      exact isDigitChar_digitChar n (by omega)
    · intro c hc
      rcases List.mem_append.mp hc with hc | hc
      · exact ih (n / 10) (Nat.div_lt_self (by omega) (by omega)) c hc
      · rcases List.mem_singleton.mp hc with rfl
        exact isDigitChar_digitChar (n % 10) (Nat.mod_lt n (by omega))

/-- Consuming a rendered number shifts it into the accumulator. -/
theorem parseDigitsAcc_renderNat (n : Nat) :
    ∀ (acc : Nat) (rest : List Char),
      parseDigitsAcc acc (renderNat n ++ rest)
        = parseDigitsAcc (acc * 10 ^ (renderNat n).length + n) rest := by
  induction n using Nat.strong_induction_on with
  | _ n ih =>
    intro acc rest
    rw [renderNat]
    split
    · rename_i h
      simp only [List.singleton_append, List.length_singleton, parseDigitsAcc,
        isDigitChar_digitChar n h, if_true, digitChar_toNat n h, pow_one]
      congr 1
      omega
    · rename_i h
      rw [List.append_assoc, List.singleton_append,
        ih (n / 10) (Nat.div_lt_self (by omega) (by omega))]
      have hd : n % 10 < 10 := Nat.mod_lt n (by omega)
      simp only [parseDigitsAcc, isDigitChar_digitChar _ hd, if_true,
        digitChar_toNat _ hd, List.length_append, List.length_singleton]
      congr 1
      have : (acc * 10 ^ (renderNat (n / 10)).length + n / 10) * 10 + (48 + n % 10 - 48)
          = acc * 10 ^ ((renderNat (n / 10)).length + 1) + n := by
        have h10 : 10 * (n / 10) + n % 10 = n := Nat.div_add_mod n 10
        ring_nf
        omega
      omega

/-- A digit-free continuation stops digit consumption. -/
theorem parseDigitsAcc_stop (acc : Nat) (rest : List Char) (h : noLeadDigit rest) :
    parseDigitsAcc acc rest = (acc, rest) := by
  cases rest with
  | nil => rfl
  | cons c cs =>
    simp only [noLeadDigit] at h
    simp [parseDigitsAcc, h]

/-- Parsing the rendering of a natural number yields it back. -/
theorem parseDigitsAcc_render (n : Nat) (rest : List Char) (h : noLeadDigit rest) :
    parseDigitsAcc 0 (renderNat n ++ rest) = (n, rest) := by
  rw [parseDigitsAcc_renderNat n 0 rest, parseDigitsAcc_stop _ _ h]
  simp

/-! ### Round-trip of the wire codec: strings -/

/-- A hex digit character decodes to its value. -/
theorem hexVal_hexDigitChar (v : Nat) (h : v < 16) :
    hexVal (hexDigitChar v) = some v := by
  unfold hexDigitChar hexVal
  interval_cases v <;> decide

/-- One parser step: closing quote. -/
theorem parseStringBody_succ_quote (f : Nat) (cs : List Char) :
    parseStringBody (f + 1) ('"' :: cs) = some ([], cs) := by
  simp [parseStringBody]

/-- One parser step: short escape. -/
theorem parseStringBody_succ_esc (f : Nat) (e ch : Char) (cs : List Char)
    (hu : e ≠ 'u') (he : unescapeChar e = some ch) :
    parseStringBody (f + 1) ('\\' :: e :: cs)
      = (parseStringBody f cs).map (fun p => (ch :: p.1, p.2)) := by
  simp [parseStringBody, hu, he]

/-- One parser step: `\uXXXX` escape. -/
theorem parseStringBody_succ_u (f : Nat) (h1 h2 h3 h4 : Char) (cs : List Char)
    (a b v3 v4 : Nat)
    (ha : hexVal h1 = some a) (hb : hexVal h2 = some b)
    (h3v : hexVal h3 = some v3) (h4v : hexVal h4 = some v4) :
    parseStringBody (f + 1) ('\\' :: 'u' :: h1 :: h2 :: h3 :: h4 :: cs)
      = (parseStringBody f cs).map
          (fun p => (Char.ofNat (((a * 16 + b) * 16 + v3) * 16 + v4) :: p.1, p.2)) := by
  simp [parseStringBody, ha, hb, h3v, h4v]

/-- One parser step: unescaped character. -/
theorem parseStringBody_succ_plain (f : Nat) (c : Char) (cs : List Char)
    (h1 : c ≠ '"') (h2 : c ≠ '\\') :
    parseStringBody (f + 1) (c :: cs)
      = (parseStringBody f cs).map (fun p => (c :: p.1, p.2)) := by
  simp [parseStringBody, h1, h2]

/-- Parsing an escaped string body recovers the original characters. -/
theorem parseStringBody_flatMap (l : List Char) :
    ∀ (rest : List Char) (fuel : Nat), (l.flatMap escapeChar).length + 1 ≤ fuel →
      parseStringBody fuel (l.flatMap escapeChar ++ '"' :: rest) = some (l, rest) := by
  induction l with
  | nil =>
    intro rest fuel hf
    obtain ⟨f, rfl⟩ : ∃ f, fuel = f + 1 := ⟨fuel - 1, by omega⟩
    simpa using parseStringBody_succ_quote f rest
  | cons c l ih =>
    intro rest fuel hf
    rw [List.flatMap_cons] at hf ⊢
    obtain ⟨f, rfl⟩ : ∃ f, fuel = f + 1 := ⟨fuel - 1, by omega⟩
    rw [List.length_append] at hf
    by_cases h1 : c = '"'
    · subst h1
      have hesc : escapeChar '"' = ['\\', '"'] := rfl
      rw [hesc] at hf ⊢
      simp only [List.length_cons, List.length_nil] at hf
      simp only [List.cons_append, List.nil_append]
      rw [parseStringBody_succ_esc f '"' '"' _ (by decide) rfl,
        ih rest f (by omega)]
      rfl
    · by_cases h2 : c = '\\'
      · subst h2
        have hesc : escapeChar '\\' = ['\\', '\\'] := rfl
        rw [hesc] at hf ⊢
        simp only [List.length_cons, List.length_nil] at hf
        simp only [List.cons_append, List.nil_append]
        rw [parseStringBody_succ_esc f '\\' '\\' _ (by decide) rfl,
          ih rest f (by omega)]
        rfl
      · by_cases h3 : c = '\x08'
        · subst h3
          have hesc : escapeChar '\x08' = ['\\', 'b'] := rfl
          rw [hesc] at hf ⊢
          simp only [List.length_cons, List.length_nil] at hf
          simp only [List.cons_append, List.nil_append]
          rw [parseStringBody_succ_esc f 'b' '\x08' _ (by decide) rfl,
            ih rest f (by omega)]
          rfl
        · by_cases h4 : c = '\x09'
          · subst h4
            have hesc : escapeChar '\x09' = ['\\', 't'] := rfl
            rw [hesc] at hf ⊢
            simp only [List.length_cons, List.length_nil] at hf
            simp only [List.cons_append, List.nil_append]
            rw [parseStringBody_succ_esc f 't' '\x09' _ (by decide) rfl,
              ih rest f (by omega)]
            rfl
          · by_cases h5 : c = '\x0a'
            · subst h5
              have hesc : escapeChar '\x0a' = ['\\', 'n'] := rfl
              rw [hesc] at hf ⊢
              simp only [List.length_cons, List.length_nil] at hf
              simp only [List.cons_append, List.nil_append]
              rw [parseStringBody_succ_esc f 'n' '\x0a' _ (by decide) rfl,
                ih rest f (by omega)]
              rfl
            · by_cases h6 : c = '\x0c'
              · subst h6
                have hesc : escapeChar '\x0c' = ['\\', 'f'] := rfl
                rw [hesc] at hf ⊢
                simp only [List.length_cons, List.length_nil] at hf
                simp only [List.cons_append, List.nil_append]
                rw [parseStringBody_succ_esc f 'f' '\x0c' _ (by decide) rfl,
                  ih rest f (by omega)]
                rfl
              · by_cases h7 : c = '\x0d'
                · subst h7
                  have hesc : escapeChar '\x0d' = ['\\', 'r'] := rfl
                  rw [hesc] at hf ⊢
                  simp only [List.length_cons, List.length_nil] at hf
                  simp only [List.cons_append, List.nil_append]
                  rw [parseStringBody_succ_esc f 'r' '\x0d' _ (by decide) rfl,
                    ih rest f (by omega)]
                  rfl
                · by_cases h8 : c.toNat < 32
                  · have hesc : escapeChar c
                        = ['\\', 'u', '0', '0', hexDigitChar (c.toNat / 16),
                           hexDigitChar (c.toNat % 16)] := by
                      simp [escapeChar, h1, h2, h3, h4, h5, h6, h7, h8]
                    rw [hesc] at hf ⊢
                    simp only [List.length_cons, List.length_nil] at hf
                    simp only [List.cons_append, List.nil_append]
                    rw [parseStringBody_succ_u f '0' '0'
                        (hexDigitChar (c.toNat / 16)) (hexDigitChar (c.toNat % 16))
                        _ 0 0 (c.toNat / 16) (c.toNat % 16) rfl rfl
                        (hexVal_hexDigitChar _ (by omega))
                        (hexVal_hexDigitChar _ (by omega)),
                      ih rest f (by omega)]
                    have harith : ((0 * 16 + 0) * 16 + c.toNat / 16) * 16 + c.toNat % 16
                        = c.toNat := by omega
                    rw [harith, Char.ofNat_toNat]
                    rfl
                  · have hesc : escapeChar c = [c] := by
                      simp [escapeChar, h1, h2, h3, h4, h5, h6, h7, h8]
                    rw [hesc] at hf ⊢
                    simp only [List.length_cons, List.length_nil] at hf
                    simp only [List.cons_append, List.nil_append]
                    rw [parseStringBody_succ_plain f c _ h1 h2,
                      ih rest f (by omega)]
                    rfl

/-! ### Round-trip of the wire codec: values -/

/-- One value-parser step: `null`. -/
theorem parseVal_succ_null (f : Nat) (rest : List Char) :
    parseVal (f + 1) ('n' :: 'u' :: 'l' :: 'l' :: rest) = some (.null, rest) := by
  simp [parseVal]

/-- One value-parser step: `true`. -/
theorem parseVal_succ_true (f : Nat) (rest : List Char) :
    parseVal (f + 1) ('t' :: 'r' :: 'u' :: 'e' :: rest) = some (.bool true, rest) := by
  simp [parseVal]

/-- One value-parser step: `false`. -/
theorem parseVal_succ_false (f : Nat) (rest : List Char) :
    parseVal (f + 1) ('f' :: 'a' :: 'l' :: 's' :: 'e' :: rest)
      = some (.bool false, rest) := by
  simp [parseVal]

/-- One value-parser step: string literal. -/
theorem parseVal_succ_str (f : Nat) (cs : List Char) :
    parseVal (f + 1) ('"' :: cs)
      = (parseStringBody f cs).map (fun p => (.str (String.mk p.1), p.2)) := by
  simp [parseVal]

/-- One value-parser step: empty array. -/
theorem parseVal_succ_arr_nil (f : Nat) (rest : List Char) :
    parseVal (f + 1) ('[' :: ']' :: rest) = some (.arr [], rest) := by
  simp [parseVal]

/-- One value-parser step: non-empty array. -/
theorem parseVal_succ_arr (f : Nat) (c : Char) (cs : List Char) (hc : c ≠ ']') :
    parseVal (f + 1) ('[' :: c :: cs)
      = (parseItems f (c :: cs)).map (fun p => (.arr p.1, p.2)) := by
  simp [parseVal, hc]

/-- One value-parser step: empty object. -/
theorem parseVal_succ_obj_nil (f : Nat) (rest : List Char) :
    parseVal (f + 1) (lbrace :: rbrace :: rest) = some (.obj [], rest) := by
  simp [parseVal, lbrace, rbrace]

/-- One value-parser step: non-empty object. -/
theorem parseVal_succ_obj (f : Nat) (d : Char) (rest : List Char) (hd : d ≠ rbrace) :
    parseVal (f + 1) (lbrace :: d :: rest)
      = (parseFields f (d :: rest)).map (fun p => (.obj p.1, p.2)) := by
  have hd' : d ≠ '\x7d' := by simpa [rbrace] using hd
  simp [parseVal, lbrace, rbrace, hd']

/-- One value-parser step: unsigned number. -/
theorem parseVal_succ_num (f : Nat) (c : Char) (cs : List Char)
    (hc : isDigitChar c = true) :
    parseVal (f + 1) (c :: cs)
      = some (.num ((parseDigitsAcc 0 (c :: cs)).1 : Int),
              (parseDigitsAcc 0 (c :: cs)).2) := by
  obtain ⟨hn, ht, hf2, hq, hbr, hlb, hm, _⟩ := isDigitChar_not_special c hc
  simp [parseVal, hn, ht, hf2, hq, hbr, hlb, hm, hc]

/-- One value-parser step: negative number. -/
theorem parseVal_succ_neg (f : Nat) (d : Char) (cs : List Char)
    (hd : isDigitChar d = true) :
    parseVal (f + 1) ('-' :: d :: cs)
      = some (.num (-((parseDigitsAcc 0 (d :: cs)).1 : Int)),
              (parseDigitsAcc 0 (d :: cs)).2) := by
  simp [parseVal, hd, lbrace, rbrace]

/-- The first character of a rendered value is never a closing bracket. -/
theorem renderJson_head (j : Json) :
    ∃ c cs, renderJson j = c :: cs ∧ c ≠ ']' := by
  cases j with
  | null => exact ⟨'n', _, by rw [renderJson], by decide⟩
  | bool b =>
    cases b with
    | true => exact ⟨'t', _, by rw [renderJson], by decide⟩
    | false => exact ⟨'f', _, by rw [renderJson], by decide⟩
  | num n =>
    rw [renderJson]
    unfold renderInt
    by_cases hn : n < 0
    · exact ⟨'-', _, by rw [if_pos hn], by decide⟩
    · rw [if_neg hn]
      obtain ⟨d, ds, hds⟩ := List.exists_cons_of_ne_nil (renderNat_ne_nil n.natAbs)
      have hdig : isDigitChar d = true :=
        renderNat_digits n.natAbs d (hds ▸ List.mem_cons_self d ds)
      exact ⟨d, ds, hds, (isDigitChar_not_special d hdig).2.2.2.2.2.2.2⟩
  | str s =>
    exact ⟨'"', s.data.flatMap escapeChar ++ ['"'],
      by rw [renderJson, renderString, List.cons_append], by decide⟩
  | arr xs =>
    exact ⟨'[', renderItems xs ++ [']'],
      by rw [renderJson, List.cons_append], by decide⟩
  | obj fs =>
    exact ⟨lbrace, renderFields fs ++ [rbrace],
      by rw [renderJson, List.cons_append], by simp [lbrace]⟩

/-- Rebuilding a string from its characters is the identity. -/
theorem String_mk_data (s : String) : String.mk s.data = s := rfl

/-- A continuation headed by a non-digit character is digit free. -/
theorem noLeadDigit_cons (c : Char) (r : List Char) (h : isDigitChar c = false) :
    noLeadDigit (c :: r) := h

/-- Every parse bound is positive. -/
theorem pbound_pos (j : Json) : 1 ≤ pbound j := by
  cases j <;> simp [pbound]

/-- The items bound is positive. -/
theorem pboundItems_pos (xs : List Json) : 1 ≤ pboundItems xs := by
  cases xs <;> simp [pboundItems]

/-- The fields bound is positive. -/
theorem pboundFields_pos (fs : List (String × Json)) : 1 ≤ pboundFields fs := by
  cases fs <;> simp [pboundFields]

/-- One items-parser step: element followed by a comma. -/
theorem parseItems_comma (f : Nat) (s : List Char) (v : Json) (r : List Char)
    (h : parseVal f s = some (v, ',' :: r)) :
    parseItems (f + 1) s = (parseItems f r).map (fun p => (v :: p.1, p.2)) := by
  simp [parseItems, h]

/-- One items-parser step: last element followed by the closing bracket. -/
theorem parseItems_close (f : Nat) (s : List Char) (v : Json) (r : List Char)
    (h : parseVal f s = some (v, ']' :: r)) :
    parseItems (f + 1) s = some ([v], r) := by
  simp [parseItems, h]

/-- One fields-parser step: field followed by a comma. -/
theorem parseFields_comma (f : Nat) (cs key r : List Char) (v : Json)
    (r2 : List Char)
    (hk : parseStringBody f cs = some (key, ':' :: r))
    (hv : parseVal f r = some (v, ',' :: r2)) :
    parseFields (f + 1) ('"' :: cs)
      = (parseFields f r2).map (fun p => ((String.mk key, v) :: p.1, p.2)) := by
  simp [parseFields, hk, hv]

/-- One fields-parser step: last field followed by the closing brace. -/
theorem parseFields_close (f : Nat) (cs key r : List Char) (v : Json)
    (r2 : List Char)
    (hk : parseStringBody f cs = some (key, ':' :: r))
    (hv : parseVal f r = some (v, rbrace :: r2)) :
    parseFields (f + 1) ('"' :: cs) = some ([(String.mk key, v)], r2) := by
  simp [parseFields, hk, hv, rbrace]

mutual

/-- Parsing the rendering of a value (followed by any continuation that
does not start with a digit) yields the value back. -/
theorem parseVal_render (j : Json) (rest : List Char) (fuel : Nat)
    (hf : pbound j ≤ fuel) (hrest : noLeadDigit rest) :
    parseVal fuel (renderJson j ++ rest) = some (j, rest) := by
  obtain ⟨f, rfl⟩ : ∃ f, fuel = f + 1 :=
    ⟨fuel - 1, by have := pbound_pos j; omega⟩
  cases j with
  | null =>
    rw [renderJson]
    simpa using parseVal_succ_null f rest
  | bool b =>
    cases b with
    | true =>
      rw [renderJson]
      simpa using parseVal_succ_true f rest
    | false =>
      rw [renderJson]
      simpa using parseVal_succ_false f rest
  | num n =>
    rw [renderJson]
    unfold renderInt
    by_cases hn : n < 0
    · rw [if_pos hn]
      obtain ⟨d, ds, hds⟩ := List.exists_cons_of_ne_nil (renderNat_ne_nil n.natAbs)
      have hdig : isDigitChar d = true :=
        renderNat_digits n.natAbs d (hds ▸ List.mem_cons_self d ds)
      rw [List.cons_append, hds, List.cons_append,
        parseVal_succ_neg f d (ds ++ rest) hdig,
        show d :: (ds ++ rest) = (d :: ds) ++ rest from rfl, ← hds,
        parseDigitsAcc_render n.natAbs rest hrest]
      have hcast : -((n.natAbs : Nat) : Int) = n := by omega
      rw [hcast]
    · rw [if_neg hn]
      obtain ⟨d, ds, hds⟩ := List.exists_cons_of_ne_nil (renderNat_ne_nil n.natAbs)
      have hdig : isDigitChar d = true :=
        renderNat_digits n.natAbs d (hds ▸ List.mem_cons_self d ds)
      rw [hds, List.cons_append, parseVal_succ_num f d (ds ++ rest) hdig,
        show d :: (ds ++ rest) = (d :: ds) ++ rest from rfl, ← hds,
        parseDigitsAcc_render n.natAbs rest hrest]
      have hcast : ((n.natAbs : Nat) : Int) = n := by omega
      rw [hcast]
  | str s =>
    rw [renderJson, renderString]
    rw [pbound] at hf
    simp only [List.cons_append, List.append_assoc, List.singleton_append,
      List.nil_append]
    rw [parseVal_succ_str f _,
      parseStringBody_flatMap s.data rest f (by omega)]
    rfl
  | arr xs =>
    rw [pbound] at hf
    cases xs with
    | nil =>
      rw [renderJson, renderItems]
      simpa using parseVal_succ_arr_nil f rest
    | cons x xs =>
      obtain ⟨c, cs, hhead, hcne⟩ := renderJson_head x
      have htail : ∃ tail, renderItems (x :: xs) = c :: tail := by
        cases xs with
        | nil => exact ⟨cs, by rw [renderItems, hhead]⟩
        | cons y ys =>
          exact ⟨cs ++ ',' :: renderItems (y :: ys),
            by rw [renderItems, hhead, List.cons_append]⟩
      obtain ⟨tail, htail⟩ := htail
      rw [renderJson, List.append_assoc, List.singleton_append,
        List.cons_append, htail, List.cons_append,
        parseVal_succ_arr f c (tail ++ ']' :: rest) hcne,
        show c :: (tail ++ ']' :: rest) = (c :: tail) ++ ']' :: rest from rfl,
        ← htail,
        parseItems_render (x :: xs) (List.cons_ne_nil x xs) rest f (by omega)]
      rfl
  | obj fs =>
    rw [pbound] at hf
    cases fs with
    | nil =>
      rw [renderJson, renderFields]
      simpa using parseVal_succ_obj_nil f rest
    | cons g gs =>
      have htail : ∃ tail, renderFields (g :: gs) = '"' :: tail := by
        cases gs with
        | nil =>
          exact ⟨g.1.data.flatMap escapeChar ++ '"' :: ':' :: renderJson g.2,
            by rw [renderFields, renderString]; simp⟩
        | cons h hs =>
          exact ⟨g.1.data.flatMap escapeChar
              ++ '"' :: ':' :: (renderJson g.2 ++ ',' :: renderFields (h :: hs)),
            by rw [renderFields, renderString]; simp⟩
      obtain ⟨tail, htail⟩ := htail
      rw [renderJson, List.append_assoc, List.singleton_append,
        List.cons_append, htail, List.cons_append,
        parseVal_succ_obj f '"' (tail ++ rbrace :: rest) (by decide),
        show '"' :: (tail ++ rbrace :: rest) = ('"' :: tail) ++ rbrace :: rest from rfl,
        ← htail,
        parseFields_render (g :: gs) (List.cons_ne_nil g gs) rest f (by omega)]
      rfl

/-- Parsing rendered array elements up to the closing bracket. -/
theorem parseItems_render (xs : List Json) (hne : xs ≠ []) (rest : List Char)
    (fuel : Nat) (hf : pboundItems xs ≤ fuel) :
    parseItems fuel (renderItems xs ++ ']' :: rest) = some (xs, rest) := by
  obtain ⟨f, rfl⟩ : ∃ f, fuel = f + 1 :=
    ⟨fuel - 1, by have := pboundItems_pos xs; omega⟩
  cases xs with
  | nil => exact absurd rfl hne
  | cons x xs =>
    rw [pboundItems] at hf
    have hx : pbound x ≤ f := by
      have := Nat.le_max_left (pbound x) (pboundItems xs)
      omega
    cases xs with
    | nil =>
      rw [renderItems,
        parseItems_close f _ x rest
          (parseVal_render x (']' :: rest) f hx
            (noLeadDigit_cons _ _ (by decide)))]
    | cons y ys =>
      have hys : pboundItems (y :: ys) ≤ f := by
        have := Nat.le_max_right (pbound x) (pboundItems (y :: ys))
        omega
      rw [renderItems, List.append_assoc, List.cons_append,
        parseItems_comma f _ x (renderItems (y :: ys) ++ ']' :: rest)
          (parseVal_render x (',' :: (renderItems (y :: ys) ++ ']' :: rest)) f hx
            (noLeadDigit_cons _ _ (by decide))),
        parseItems_render (y :: ys) (List.cons_ne_nil y ys) rest f hys]
      rfl

/-- Parsing rendered object fields up to the closing brace. -/
theorem parseFields_render (fs : List (String × Json)) (hne : fs ≠ [])
    (rest : List Char) (fuel : Nat) (hf : pboundFields fs ≤ fuel) :
    parseFields fuel (renderFields fs ++ rbrace :: rest) = some (fs, rest) := by
  obtain ⟨f, rfl⟩ : ∃ f, fuel = f + 1 :=
    ⟨fuel - 1, by have := pboundFields_pos fs; omega⟩
  cases fs with
  | nil => exact absurd rfl hne
  | cons g gs =>
    rw [pboundFields] at hf
    have hkey : (g.1.data.flatMap escapeChar).length + 1 ≤ f := by
      have := Nat.le_max_left ((g.1.data.flatMap escapeChar).length + 1)
        (max (pbound g.2) (pboundFields gs))
      omega
    have hval : pbound g.2 ≤ f := by
      have h1 := Nat.le_max_right ((g.1.data.flatMap escapeChar).length + 1)
        (max (pbound g.2) (pboundFields gs))
      have h2 := Nat.le_max_left (pbound g.2) (pboundFields gs)
      omega
    cases gs with
    | nil =>
      rw [renderFields, renderString]
      simp only [List.cons_append, List.append_assoc, List.singleton_append,
        List.nil_append]
      rw [parseFields_close f _ g.1.data (renderJson g.2 ++ rbrace :: rest) g.2 rest
          (parseStringBody_flatMap g.1.data _ f hkey)
          (parseVal_render g.2 (rbrace :: rest) f hval
            (noLeadDigit_cons _ _ (by decide))),
        String_mk_data]
    | cons h hs =>
      have hrest2 : pboundFields (h :: hs) ≤ f := by
        have h1 := Nat.le_max_right ((g.1.data.flatMap escapeChar).length + 1)
          (max (pbound g.2) (pboundFields (h :: hs)))
        have h2 := Nat.le_max_right (pbound g.2) (pboundFields (h :: hs))
        omega
      rw [renderFields, renderString]
      simp only [List.cons_append, List.append_assoc, List.singleton_append,
        List.nil_append]
      rw [parseFields_comma f _ g.1.data
          (renderJson g.2 ++ ',' :: (renderFields (h :: hs) ++ rbrace :: rest)) g.2
          (renderFields (h :: hs) ++ rbrace :: rest)
          (parseStringBody_flatMap g.1.data _ f hkey)
          (parseVal_render g.2
            (',' :: (renderFields (h :: hs) ++ rbrace :: rest)) f hval
            (noLeadDigit_cons _ _ (by decide))),
        parseFields_render (h :: hs) (List.cons_ne_nil h hs) rest f hrest2,
        String_mk_data]
      rfl

end

mutual

/-- The parse bound of a value is at most its rendered length plus one. -/
theorem pbound_le_render (j : Json) : pbound j ≤ (renderJson j).length + 1 := by
  cases j with
  | null => rw [renderJson]; simp [pbound]
  | bool b => cases b <;> (rw [renderJson]; simp [pbound])
  | num n => rw [renderJson]; simp [pbound]
  | str s => rw [renderJson, renderString]; simp [pbound]
  | arr xs =>
    have h := pboundItems_le_render xs
    rw [renderJson, pbound]
    simp only [List.cons_append, List.length_cons, List.length_append,
      List.length_singleton]
    omega
  | obj fs =>
    have h := pboundFields_le_render fs
    rw [renderJson, pbound]
    simp only [List.cons_append, List.length_cons, List.length_append,
      List.length_singleton]
    omega

/-- The items bound is at most the rendered length plus two. -/
theorem pboundItems_le_render (xs : List Json) :
    pboundItems xs ≤ (renderItems xs).length + 2 := by
  cases xs with
  | nil => rw [renderItems]; simp [pboundItems]
  | cons x xs =>
    have hx := pbound_le_render x
    cases xs with
    | nil =>
      rw [renderItems, pboundItems]
      simp only [pboundItems]
      omega
    | cons y ys =>
      have hr := pboundItems_le_render (y :: ys)
      rw [renderItems, pboundItems]
      simp only [List.length_append, List.length_cons]
      omega

/-- The fields bound is at most the rendered length plus two. -/
theorem pboundFields_le_render (fs : List (String × Json)) :
    pboundFields fs ≤ (renderFields fs).length + 2 := by
  cases fs with
  | nil => rw [renderFields]; simp [pboundFields]
  | cons g gs =>
    have hv := pbound_le_render g.2
    cases gs with
    | nil =>
      rw [renderFields, renderString, pboundFields]
      simp only [pboundFields, List.cons_append, List.length_append,
        List.length_cons, List.length_singleton]
      omega
    | cons h hs =>
      have hr := pboundFields_le_render (h :: hs)
      rw [renderFields, renderString, pboundFields]
      simp only [List.cons_append, List.length_append, List.length_cons,
        List.length_singleton]
      omega

end

/-- `JSON.parse` inverts `JSON.stringify` on every JSON value. -/
theorem parseJson_render (j : Json) :
    parseJson (String.mk (renderJson j)) = some j := by
  unfold parseJson
  have h := parseVal_render j [] ((renderJson j).length + 1)
    (pbound_le_render j) trivial
  rw [List.append_nil] at h
  have hdata : (String.mk (renderJson j)).data = renderJson j := rfl
  rw [hdata, h]

/-- Decoding inverts encoding of ids. -/
theorem decodeId_encodeId (i : RpcId) : decodeId (encodeId i) = some i := by
  cases i <;> rfl

/-- Decoding inverts encoding of error objects. -/
theorem decodeError_encodeError (e : RpcError) :
    decodeError (encodeError e) = some e := by
  obtain ⟨c, msg, d⟩ := e
  cases d <;> simp [encodeError, decodeError, Json.getField]

/-- Decoding inverts encoding of whole envelopes. -/
theorem decodeMessage_encodeMessage (m : MCPMessage) :
    decodeMessage (encodeMessage m) = some m := by
  obtain ⟨tag, id, method, params, result, error⟩ := m
  cases id <;> cases method <;> cases params <;> cases result <;> cases error <;>
    simp [encodeMessage, decodeMessage, Json.getField, decodeId_encodeId,
      decodeError_encodeError]

/-- The dynamic `validate` on the encoded envelope agrees with the typed
discriminant. -/
theorem validate_encodeMessage (m : MCPMessage) :
    validate (encodeMessage m) = validateMsg m := by
  obtain ⟨tag, id, method, params, result, error⟩ := m
  by_cases htag : tag = "2.0" <;>
    (cases id <;> cases method <;> cases params <;> cases result <;> cases error <;>
      simp [encodeMessage, validate, validateMsg, Json.getField, Json.isObjectLike,
        Json.fieldIs, Json.fieldIsString, Json.hasField, encodeId, htag])

/-- C3: for every envelope the codec's `validate` accepts (payloads being
JSON values, hence JSON-representable), deserializing its serialization
yields the envelope back. -/
theorem serialize_deserialize_roundtrip (m : MCPMessage)
    (h : validateMsg m = true) :
    deserialize (serialize m) = .ok m := by
  simp only [serialize, deserialize, parseJson_render, validate_encodeMessage, h,
    if_true, decodeMessage_encodeMessage]

/-- Witness for C3 at a concrete request with a string payload. -/
theorem serialize_deserialize_roundtrip_witness :
    deserialize (serialize
        { id := some (.num 3), method := some "ping",
          params := some (.obj [("a", .str "x")]) })
      = .ok
        { id := some (.num 3), method := some "ping",
          params := some (.obj [("a", .str "x")]) } :=
  serialize_deserialize_roundtrip _ rfl

end MCPOrch
